/-
  Verification development for the rss-normalizer repository (src/main.py).

  Shallow embedding conventions:
  * Python `str` values are modelled as `List Char` (`Str` below); Python
    byte strings produced by the XML serializer are modelled the same way.
  * Python integers are modelled as `Int` where the source can go negative
    (timestamps, configured limits), `Nat` otherwise.
  * HTML fragments are modelled at the level of a parsed token stream
    (`Tok` below): the upstream HTML parser (html5lib via bleach /
    BeautifulSoup) is an external primitive per the spec, so sanitizers and
    extractors are embedded as functions on token streams, and the two
    string-level regular-expression substitutions of `sanitize_for_tg` are
    rendered as the corresponding transformations of the token stream.
  * Fallible code (HTTP fetch, feed parse, document build) returns
    `Except`; the mutable module-level `_cache` dict becomes explicit
    state passing through `maybe_refresh_cache`.
  * `hashlib.sha256(...).hexdigest()` is embedded as a full executable
    SHA-256 over the UTF-8 bytes of the input.
-/
import Mathlib

namespace RssNorm

/-- Python `str` modelled as a list of unicode characters. -/
abbrev Str := List Char

/-- The ASCII whitespace characters matched by Python's `\s` and stripped by
`str.strip()` (the unicode-only whitespace code points do not occur in the
inputs considered here). -/
def isPySpace (c : Char) : Bool :=
  c == ' ' || c == '\t' || c == '\n' || c == '\r' || c == '\x0b' || c == '\x0c'

/-- Python truthiness of an optional string: `None` and `""` are falsy. -/
def pyTruthy : Option Str → Bool
  | some s => !s.isEmpty
  | none => false

/-- Python `a or b` where `a` is an optional string and `b` a string:
returns `a`'s value unless `a` is `None` or empty. -/
def pyOr : Option Str → Str → Str
  | some s, b => if s.isEmpty then b else s
  | none, b => b

/-- Python `a or b` for two optional strings, keeping the result optional. -/
def pyOrOpt : Option Str → Option Str → Option Str
  | some s, b => if s.isEmpty then b else some s
  | none, b => b

/-- Python `s.lstrip()` restricted to whitespace: drop leading whitespace. -/
def lstrip (s : Str) : Str := s.dropWhile isPySpace

/-- Python `s.rstrip()` restricted to whitespace: drop trailing whitespace. -/
def rstrip (s : Str) : Str := (s.reverse.dropWhile isPySpace).reverse

/-- Python `s.strip()`: drop leading and trailing whitespace. -/
def pyStrip (s : Str) : Str := lstrip (rstrip s)

/-- Python slicing `s[:n]` for a possibly negative `n`
(`s[:-k]` drops the last `k` characters). -/
def pySliceTo (s : Str) (n : Int) : Str :=
  if 0 ≤ n then s.take n.toNat else s.take (s.length - (-n).toNat)

/-- The substitution `re.sub(r"\s+\S*$", "", s)`: if the (possibly empty) trailing run of
non-whitespace characters is preceded by at least one whitespace character,
remove that run together with the whitespace run before it; otherwise the
pattern does not match and `s` is unchanged. -/
def subTrailingWsWord (s : Str) : Str :=
  let r := s.reverse
  let r2 := r.dropWhile (fun c => !isPySpace c)
  if r2.isEmpty then s else (r2.dropWhile isPySpace).reverse

/-- The ellipsis character `…` (U+2026) appended by `chunk_plain_text`. -/
def ellipsisChar : Char := Char.ofNat 8230

/-- Function `chunk_plain_text` from src/main.py: truncate `s` to at most `maxlen`
characters by cutting at `maxlen - 1`, removing a trailing partial word when
there is whitespace to cut back to, stripping, and appending one ellipsis
character. -/
def chunk_plain_text (s : Str) (maxlen : Int) : Str :=
  if (s.length : Int) ≤ maxlen then s
  else
    let cut := pySliceTo s (maxlen - 1)
    let cut2 := pyStrip (subTrailingWsWord cut)
    cut2 ++ [ellipsisChar]

/-- Does `t` render the content of `s` up to a whitespace boundary?  True
when `t` is the `strip` of a prefix of `s` that is followed by a whitespace
character: such a `t` ends with a complete word of `s`, never a split
one. -/
def endsAtWsBoundaryB (s t : Str) : Bool :=
  (List.range (s.length + 1)).any fun k =>
    (t == pyStrip (s.take k)) &&
      (match (s.drop k).head? with
       | some c => isPySpace c
       | none => false)

/-! ### SHA-256 (`hashlib.sha256(...).hexdigest()` on UTF-8 bytes)

Bytes and 32-bit words are `Nat` values reduced modulo `2 ^ 8` / `2 ^ 32`
explicitly; `g.encode("utf-8", "ignore")` is the standard UTF-8 encoding
(Lean strings contain no lone surrogates, so the `ignore` mode never drops
anything here). -/

/-- UTF-8 encoding of one unicode scalar value, as byte values. -/
def utf8EncodeChar (c : Char) : List Nat :=
  let n := c.toNat
  if n < 128 then [n]
  else if n < 2048 then [192 + n / 64, 128 + n % 64]
  else if n < 65536 then [224 + n / 4096, 128 + n / 64 % 64, 128 + n % 64]
  else [240 + n / 262144, 128 + n / 4096 % 64, 128 + n / 64 % 64, 128 + n % 64]

/-- UTF-8 encoding of a whole string. -/
def utf8Bytes (s : Str) : List Nat := s.foldr (fun c acc => utf8EncodeChar c ++ acc) []

/-- Truncation to a 32-bit word. -/
def w32 (n : Nat) : Nat := n % 4294967296

/-- Rotate a 32-bit word right. -/
def rotr32 (x n : Nat) : Nat := w32 (x / 2 ^ n + x % 2 ^ n * 2 ^ (32 - n))

/-- Shift a 32-bit word right. -/
def shr32 (x n : Nat) : Nat := x / 2 ^ n

/-- SHA-256 round constants (FIPS 180-4, written in decimal). -/
def sha256K : List Nat :=
  [1116352408, 1899447441, 3049323471, 3921009573, 961987163,
   1508970993, 2453635748, 2870763221, 3624381080, 310598401,
   607225278, 1426881987, 1925078388, 2162078206, 2614888103,
   3248222580, 3835390401, 4022224774, 264347078, 604807628,
   770255983, 1249150122, 1555081692, 1996064986, 2554220882,
   2821834349, 2952996808, 3210313671, 3336571891, 3584528711,
   113926993, 338241895, 666307205, 773529912, 1294757372,
   1396182291, 1695183700, 1986661051, 2177026350, 2456956037,
   2730485921, 2820302411, 3259730800, 3345764771, 3516065817,
   3600352804, 4094571909, 275423344, 430227734, 506948616,
   659060556, 883997877, 958139571, 1322822218, 1537002063,
   1747873779, 1955562222, 2024104815, 2227730452, 2361852424,
   2428436474, 2756734187, 3204031479, 3329325298]

/-- SHA-256 hash state: eight 32-bit words. -/
structure Sha256State where
  a : Nat
  b : Nat
  c : Nat
  d : Nat
  e : Nat
  f : Nat
  g : Nat
  h : Nat
  deriving DecidableEq

/-- SHA-256 initial hash value (FIPS 180-4, written in decimal). -/
def sha256Init : Sha256State :=
  ⟨1779033703, 3144134277, 1013904242, 2773480762,
   1359893119, 2600822924, 528734635, 1541459225⟩

/-- Message padding: append `0x80`, zero bytes to 56 mod 64, then the bit
length as an 8-byte big-endian integer. -/
def sha256Pad (msg : List Nat) : List Nat :=
  let len := msg.length
  let zeros := (55 + 64 - len % 64) % 64
  let bitLen := 8 * len
  msg ++ [128] ++ List.replicate zeros 0 ++
    ((List.range 8).map fun i => bitLen / 2 ^ (8 * (7 - i)) % 256)

/-- Split a padded message into 64-byte blocks. -/
def sha256Blocks : List Nat → List (List Nat)
  | [] => []
  | b :: bs => (b :: bs).take 64 :: sha256Blocks ((b :: bs).drop 64)
  termination_by bs => bs.length
  decreasing_by
    simp only [List.length_drop, List.length_cons]
    omega

/-- The sixteen 32-bit big-endian words of one 64-byte block. -/
def blockWords (block : List Nat) : List Nat :=
  (List.range 16).map fun i =>
    (block.getD (4 * i) 0) * 16777216 + (block.getD (4 * i + 1) 0) * 65536 +
    (block.getD (4 * i + 2) 0) * 256 + block.getD (4 * i + 3) 0

/-- Extend sixteen words to the 64-word message schedule. -/
def sha256Schedule (ws : List Nat) : List Nat :=
  (List.range 48).foldl
    (fun acc _ =>
      let n := acc.length
      let s0 := Nat.xor (Nat.xor (rotr32 (acc.getD (n - 15) 0) 7) (rotr32 (acc.getD (n - 15) 0) 18))
        (shr32 (acc.getD (n - 15) 0) 3)
      let s1 := Nat.xor (Nat.xor (rotr32 (acc.getD (n - 2) 0) 17) (rotr32 (acc.getD (n - 2) 0) 19))
        (shr32 (acc.getD (n - 2) 0) 10)
      acc ++ [w32 (acc.getD (n - 16) 0 + s0 + acc.getD (n - 7) 0 + s1)])
    ws

/-- One SHA-256 compression round. -/
def sha256Round (st : Sha256State) (kw : Nat × Nat) : Sha256State :=
  let s1 := Nat.xor (Nat.xor (rotr32 st.e 6) (rotr32 st.e 11)) (rotr32 st.e 25)
  let ch := Nat.xor (Nat.land st.e st.f) (Nat.land (4294967295 - st.e) st.g)
  let t1 := w32 (st.h + s1 + ch + kw.1 + kw.2)
  let s0 := Nat.xor (Nat.xor (rotr32 st.a 2) (rotr32 st.a 13)) (rotr32 st.a 22)
  let mj := Nat.xor (Nat.xor (Nat.land st.a st.b) (Nat.land st.a st.c)) (Nat.land st.b st.c)
  let t2 := w32 (s0 + mj)
  ⟨w32 (t1 + t2), st.a, st.b, st.c, w32 (st.d + t1), st.e, st.f, st.g⟩

/-- Compress one block into the running hash state. -/
def sha256Compress (st : Sha256State) (block : List Nat) : Sha256State :=
  let ws := sha256Schedule (blockWords block)
  let r := (sha256K.zip ws).foldl sha256Round st
  ⟨w32 (st.a + r.a), w32 (st.b + r.b), w32 (st.c + r.c), w32 (st.d + r.d),
   w32 (st.e + r.e), w32 (st.f + r.f), w32 (st.g + r.g), w32 (st.h + r.h)⟩

/-- SHA-256 of a byte sequence, as the final eight-word state. -/
def sha256 (msg : List Nat) : Sha256State :=
  (sha256Blocks (sha256Pad msg)).foldl sha256Compress sha256Init

/-- The sixteen lowercase hex digits. -/
def hexChars : Str := ("0123456789abcdef").data

/-- One hex digit. -/
def hexDigit (n : Nat) : Char := hexChars.getD (n % 16) '0'

/-- A 32-bit word as eight hex characters. -/
def hexWord32 (w : Nat) : Str := (List.range 8).map fun i => hexDigit (w / 16 ^ (7 - i))

/-- The `hexdigest()` of a SHA-256 state: 64 lowercase hex characters. -/
def sha256Hex (msg : List Nat) : Str :=
  let st := sha256 msg
  hexWord32 st.a ++ hexWord32 st.b ++ hexWord32 st.c ++ hexWord32 st.d ++
  hexWord32 st.e ++ hexWord32 st.f ++ hexWord32 st.g ++ hexWord32 st.h

/-! ### HTML token model and the two sanitizers

HTML fragments are modelled as streams of parse tokens: text nodes, open
tags carrying their attribute list, and close tags.  The html5lib parse /
serialize round trip used by bleach and BeautifulSoup is the identity at
this level of abstraction (adjacent text nodes are assumed merged by the
parser).  `bleach.clean(..., strip=True)` drops disallowed tags while
keeping their text content, and filters the attributes of allowed tags
through the per-tag attribute allow-list. -/

/-- One HTML parse token. -/
inductive Tok where
  | text (s : Str)
  | tag (name : Str) (attrs : List (Str × Str))
  | close (name : Str)
  deriving DecidableEq

/-- List `TG_ALLOWED_TAGS` from src/main.py. -/
def TG_ALLOWED_TAGS : List Str :=
  [("b").data, ("strong").data, ("i").data, ("em").data, ("u").data,
   ("s").data, ("del").data, ("code").data, ("pre").data, ("a").data, ("br").data]

/-- Mapping `TG_ALLOWED_ATTRS` from src/main.py: per-tag allowed attribute names. -/
def TG_ALLOWED_ATTRS (name : Str) : List Str :=
  if name = ("a").data then [("href").data] else []

/-- List `ZEN_ALLOWED_TAGS` from src/main.py. -/
def ZEN_ALLOWED_TAGS : List Str :=
  [("p").data, ("br").data, ("ul").data, ("ol").data, ("li").data, ("blockquote").data,
   ("b").data, ("strong").data, ("i").data, ("em").data, ("u").data, ("s").data,
   ("del").data, ("code").data, ("pre").data, ("h2").data, ("h3").data, ("h4").data,
   ("img").data, ("a").data, ("figure").data, ("figcaption").data]

/-- Mapping `ZEN_ALLOWED_ATTRS` from src/main.py: per-tag allowed attribute names. -/
def ZEN_ALLOWED_ATTRS (name : Str) : List Str :=
  if name = ("a").data then [("href").data, ("title").data]
  else if name = ("img").data then
    [("src").data, ("alt").data, ("title").data, ("width").data, ("height").data]
  else []

/-- A sanitization profile: allowed tags and per-tag allowed attributes. -/
structure Profile where
  tags : List Str
  attrsFor : Str → List Str

/-- The `restricted` (Telegram) profile. -/
def tgProfile : Profile := ⟨TG_ALLOWED_TAGS, TG_ALLOWED_ATTRS⟩

/-- The `rich` (Zen) profile. -/
def zenProfile : Profile := ⟨ZEN_ALLOWED_TAGS, ZEN_ALLOWED_ATTRS⟩

/-- How `bleach.clean(..., strip=True)` treats one token: text survives,
allowed tags keep their allowed attributes, disallowed tags are dropped. -/
def cleanTok (p : Profile) : Tok → Option Tok
  | Tok.text s => some (Tok.text s)
  | Tok.tag n a =>
      if n ∈ p.tags then some (Tok.tag n (a.filter fun kv => decide (kv.1 ∈ p.attrsFor n)))
      else none
  | Tok.close n => if n ∈ p.tags then some (Tok.close n) else none

/-- The call `bleach.clean(html, tags=..., attributes=..., strip=True)` on the token
stream: disallowed tags are removed (their text content, being separate
tokens, is retained), attributes of allowed tags are filtered. -/
def bleachClean (p : Profile) (toks : List Tok) : List Tok :=
  toks.filterMap (cleanTok p)

/-- Attribute lookup, Python `element.get(key)`. -/
def attrGet (a : List (Str × Str)) (k : Str) : Option Str :=
  (a.find? fun kv => kv.1 == k).map fun kv => kv.2

/-- Keep the tokens that are not data-URI images (`src` starting with
`data:` — `img.get("src", "").startswith("data:")` selects the images
`sanitize_for_zen` decomposes). -/
def notDataImg : Tok → Bool
  | Tok.tag n a =>
      !(n == ("img").data && (("data:").data).isPrefixOf (pyOr (attrGet a (("src").data)) []))
  | _ => true

/-- Function `sanitize_for_zen` from src/main.py: bleach-clean against the `rich`
profile, then remove every `<img>` whose `src` starts with `data:`. -/
def sanitize_for_zen (toks : List Tok) : List Tok :=
  (bleachClean zenProfile toks).filter notDataImg

/-- The substitution `re.sub(r"\s+", <replace with one space>, s)`: collapse every maximal
run of whitespace characters to a single space (worker with a
previous-character-was-whitespace flag). -/
def collapseWsGo : Bool → Str → Str
  | _, [] => []
  | prevWs, c :: cs =>
      if isPySpace c then
        if prevWs then collapseWsGo true cs else ' ' :: collapseWsGo true cs
      else c :: collapseWsGo false cs

/-- Collapse whitespace runs in a string to single spaces. -/
def collapseWs (s : Str) : Str := collapseWsGo false s

/-- The whitespace substitution applied to one token: the regular expression
runs over the serialized HTML, so it rewrites text nodes and attribute
values (tag and attribute names contain no whitespace). -/
def mapTokWs : Tok → Tok
  | Tok.text s => Tok.text (collapseWs s)
  | Tok.tag n a => Tok.tag n (a.map fun kv => (kv.1, collapseWs kv.2))
  | Tok.close n => Tok.close n

/-- The canonical serialized `<br>` token. -/
def brTok : Tok := Tok.tag (("br").data) []

/-- Is this token a bare `<br>`? -/
def isBrTok (t : Tok) : Bool := t == brTok

/-- Whitespace-only text node (matched by the `\s*` parts of the
line-break-collapsing regular expression). -/
def isWsText : Tok → Bool
  | Tok.text s => s.all isPySpace
  | _ => false

/-- Token that can be part of a `(?:\s*<br\s*/?>\s*){3,}` match: a bare
`<br>` or whitespace-only text. -/
def isRunTok (t : Tok) : Bool := isBrTok t || isWsText t

/-- Number of `<br>` tokens in a list. -/
def countBr (l : List Tok) : Nat := l.countP isBrTok

/-- If the head token is a text node, strip its leading whitespace (the
trailing `\s*` of a regex match extends into a following text node). -/
def lstripHeadText : List Tok → List Tok
  | Tok.text s :: r => Tok.text (lstrip s) :: r
  | r => r

/-- When a text node immediately precedes a collapsible line-break run, the
leading `\s*` of the regex match consumes its trailing whitespace. -/
def stripBeforeRun (t : Tok) (rest : List Tok) : Tok :=
  match t with
  | Tok.text s =>
      if 3 ≤ countBr (rest.takeWhile isRunTok) then Tok.text (rstrip s) else Tok.text s
  | u => u

/-- The substitution `re.sub(r"(?:\s*<br\s*/?>\s*){3,}", "<br><br>", s)` on the token
stream, fuelled for structural recursion: a maximal run of `<br>` and
whitespace-only tokens containing at least three `<br>` is replaced by
exactly two `<br>` (absorbing the surrounding whitespace); shorter runs are
left as they are. -/
def collapseBrF : Nat → List Tok → List Tok
  | 0, l => l
  | _ + 1, [] => []
  | fuel + 1, t :: ts =>
      if isRunTok t then
        if 3 ≤ countBr (t :: ts.takeWhile isRunTok) then
          brTok :: brTok :: collapseBrF fuel (lstripHeadText (ts.dropWhile isRunTok))
        else (t :: ts.takeWhile isRunTok) ++ collapseBrF fuel (ts.dropWhile isRunTok)
      else stripBeforeRun t ts :: collapseBrF fuel ts

/-- The line-break-run collapse with enough fuel. -/
def collapseBrToks (l : List Tok) : List Tok := collapseBrF l.length l

/-- Function `sanitize_for_tg` from src/main.py: bleach-clean against the
`restricted` profile, collapse whitespace runs to single spaces, then
collapse runs of three or more `<br>` to exactly two.  (The replacement
callback for the whitespace substitution, written with an invalid
identifier in the source, returns a single space for every match.) -/
def sanitize_for_tg (toks : List Tok) : List Tok :=
  collapseBrToks ((bleachClean tgProfile toks).map mapTokWs)

/-- Is every whitespace run in `s` already a single plain space?  (Worker
with a previous-character-was-whitespace flag.) -/
def wsNormalGo : Bool → Str → Bool
  | _, [] => true
  | prevWs, c :: cs =>
      if isPySpace c then !prevWs && (c == ' ') && wsNormalGo true cs
      else wsNormalGo false cs

/-- Whitespace-normal string: no two adjacent whitespace characters, and
every whitespace character is a plain space. -/
def wsNormal (s : Str) : Bool := wsNormalGo false s

/-- Whitespace-normality of one token: its text content and attribute
values are whitespace-normal. -/
def tokWsNormal : Tok → Bool
  | Tok.text s => wsNormal s
  | Tok.tag _ a => a.all fun kv => wsNormal kv.2
  | Tok.close _ => true

/-- No maximal run of `<br>`/whitespace-only tokens contains three or more
`<br>` (fuelled like `collapseBrF`). -/
def brNormalF : Nat → List Tok → Bool
  | 0, _ => true
  | _ + 1, [] => true
  | fuel + 1, t :: ts =>
      if isRunTok t then
        decide (countBr (t :: ts.takeWhile isRunTok) ≤ 2) &&
          brNormalF fuel (ts.dropWhile isRunTok)
      else brNormalF fuel ts

/-- Predicate `brNormalF` with enough fuel. -/
def brNormalToks (l : List Tok) : Bool := brNormalF l.length l

/-- Membership of one token in a profile's allow-list: text is always
allowed, tags must be in the allowed-tag list and carry only allowed
attribute names. -/
def allowedTok (p : Profile) : Tok → Bool
  | Tok.text _ => true
  | Tok.tag n a => decide (n ∈ p.tags) && a.all fun kv => decide (kv.1 ∈ p.attrsFor n)
  | Tok.close n => decide (n ∈ p.tags)

/-- The block-level HTML elements (the HTML standard's list). -/
def blockLevelTags : List Str :=
  [("address").data, ("article").data, ("aside").data, ("blockquote").data,
   ("details").data, ("dialog").data, ("dd").data, ("div").data, ("dl").data,
   ("dt").data, ("fieldset").data, ("figcaption").data, ("figure").data,
   ("footer").data, ("form").data, ("h1").data, ("h2").data, ("h3").data,
   ("h4").data, ("h5").data, ("h6").data, ("header").data, ("hgroup").data,
   ("hr").data, ("li").data, ("main").data, ("nav").data, ("ol").data,
   ("p").data, ("pre").data, ("section").data, ("table").data, ("ul").data]

/-- Is the token an opening tag of a block-level element? -/
def isBlockTok : Tok → Bool
  | Tok.tag n _ => decide (n ∈ blockLevelTags)
  | _ => false

/-! ### Feed entries, extraction, identity derivation -/

/-- One `content` block of a feedparser entry (`c.get("type", "")` and
`c.get("value")`, the value being HTML modelled as parse tokens; a missing
or empty value is `[]`). -/
structure ContentBlock where
  ctype : Str
  value : List Tok
  deriving DecidableEq

/-- One enclosure of a feedparser entry. -/
structure Enclosure where
  href : Option Str
  url : Option Str
  etype : Option Str
  deriving DecidableEq

/-- One tag record of a feedparser entry. -/
structure TagTerm where
  term : Option Str
  deriving DecidableEq

/-- The first six fields of a `time.struct_time`
(year, month, day, hour, minute, second). -/
structure TimeTuple where
  year : Nat
  month : Nat
  day : Nat
  hour : Nat
  minute : Nat
  second : Nat
  deriving DecidableEq

/-- A feedparser entry, with the fields src/main.py reads.  HTML-valued
fields (`summary`, `description`, content block values) are token streams;
a field that is absent or the empty string is `[]` there, matching Python
truthiness. -/
structure Entry where
  id : Option Str
  guid : Option Str
  link : Option Str
  title : Option Str
  published : Option Str
  published_parsed : Option TimeTuple
  updated_parsed : Option TimeTuple
  content : List ContentBlock
  summary : List Tok
  description : List Tok
  author : Option Str
  tags : List TagTerm
  enclosures : List Enclosure
  deriving DecidableEq

/-- The string whose SHA-256 becomes the entry's GUID:
`entry.get("id") or entry.get("guid") or entry.get("link") or
(entry.get("title","") + str(entry.get("published","")))`. -/
def guid_source (e : Entry) : Str :=
  pyOr e.id (pyOr e.guid (pyOr e.link ((e.title.getD []) ++ (e.published.getD []))))

/-- Function `guid_for` from src/main.py: SHA-256 hex digest of the UTF-8 bytes of
the resolved identifier source. -/
def guid_for (e : Entry) : Str := sha256Hex (utf8Bytes (guid_source e))

/-- The process configuration (environment variables read at startup). -/
structure Config where
  SOURCE_FEED_URL : Str
  SITE_BASE : Str
  FEED_TITLE : Str
  FEED_LINK : Str
  FEED_DESCRIPTION : Str
  TELEGRAM_MAX : Int
  CACHE_TTL : Int
  deriving DecidableEq

/-- Index of the first occurrence of `://` in a URL, if any. -/
def schemeSepIdx (u : Str) : Option Nat :=
  (List.range u.length).find? fun i => (("://").data).isPrefixOf (u.drop i)

/-- Does the URL carry its own scheme? -/
def hasScheme (u : Str) : Bool := (schemeSepIdx u).isSome

/-- The `scheme://netloc` part of a URL. -/
def originOf (u : Str) : Str :=
  match schemeSepIdx u with
  | some i => u.take (i + 3) ++ (u.drop (i + 3)).takeWhile (fun c => c != '/')
  | none => []

/-- The URL up to and including the last `/` of its path. -/
def dirOf (u : Str) : Str :=
  match schemeSepIdx u with
  | some i =>
      if ((u.drop (i + 3)).dropWhile (fun c => c != '/')).isEmpty then u ++ [('/')]
      else (u.reverse.dropWhile (fun c => c != '/')).reverse
  | none => []

/-- Modelled from the behaviour of `urllib.parse.urljoin` (an external
stdlib primitive) on the URL forms arising here: already-absolute URLs pass
through, scheme-relative, root-relative and document-relative references
are resolved against the base. -/
def urljoin (base url : Str) : Str :=
  if url.isEmpty then base
  else if hasScheme url then url
  else if (("//").data).isPrefixOf url then (base.takeWhile (fun c => c != ':')) ++ [(':')] ++ url
  else if url.headD ' ' == '/' then originOf base ++ url
  else dirOf base ++ url

/-- Function `absolutize_url` from src/main.py (`urljoin` wrapped in a `try` whose
failure branch returns the input unchanged; the model's `urljoin` is
total). -/
def absolutize_url (src base : Str) : Str := urljoin base src

/-- Rewrite the value of attribute `k` (when present) through `f`. -/
def updateAttr (a : List (Str × Str)) (k : Str) (f : Str → Str) : List (Str × Str) :=
  a.map fun kv => if kv.1 == k then (kv.1, f kv.2) else kv

/-- Is this token an opening tag named `n`? -/
def isOpenTag (n : Str) (t : Tok) : Bool :=
  match t with
  | Tok.tag m _ => m == n
  | _ => false

/-- Function `extract_main_html` from src/main.py: choose the body HTML (first
`text/html` content block, else summary, else description, else empty),
record the first `<img>`'s absolutized `src`, and absolutize every `a href`
and `img src`. -/
def extract_main_html (cfg : Config) (e : Entry) : List Tok × Option Str :=
  let base := pyOr e.link cfg.SITE_BASE
  let html0 :=
    match e.content.find? (fun c => (("text/html").data).isPrefixOf c.ctype) with
    | some c => c.value
    | none => []
  let html := if html0.isEmpty then (if e.summary.isEmpty then e.description else e.summary) else html0
  let firstImg :=
    match html.find? (isOpenTag (("img").data)) with
    | some (Tok.tag _ a) =>
        match attrGet a (("src").data) with
        | some src => if src.isEmpty then none else some (absolutize_url src base)
        | none => none
    | _ => none
  let toks := html.map fun t =>
    match t with
    | Tok.tag n a =>
        if n == ("a").data then Tok.tag n (updateAttr a (("href").data) (fun v => absolutize_url v base))
        else if n == ("img").data then Tok.tag n (updateAttr a (("src").data) (fun v => absolutize_url v base))
        else Tok.tag n a
    | u => u
  (toks, firstImg)

/-- Modelled subset of `mimetypes.guess_type` (an external stdlib
primitive): MIME type by file extension for the common image types. -/
def guessMime (url : Str) : Option Str :=
  let rev := url.reverse
  let extRev := rev.takeWhile fun c => c != '.' && c != '/'
  if rev.length > extRev.length && rev.getD extRev.length ' ' == '.' then
    let ext := extRev.reverse
    if ext == ("jpg").data || ext == ("jpeg").data then some (("image/jpeg").data)
    else if ext == ("png").data then some (("image/png").data)
    else if ext == ("gif").data then some (("image/gif").data)
    else if ext == ("webp").data then some (("image/webp").data)
    else none
  else none

/-- Function `pick_enclosure` from src/main.py: the first enclosure's URL and MIME
type when it has a usable URL, else the first content image, else none. -/
def pick_enclosure (cfg : Config) (e : Entry) (htmlFirstImg : Option Str) : Option (Str × Str) :=
  let fromImg :=
    match htmlFirstImg with
    | some img =>
        if img.isEmpty then none
        else some (img, pyOr (guessMime img) (("image/jpeg").data))
    | none => none
  match e.enclosures with
  | enc :: _ =>
      match pyOrOpt enc.href enc.url with
      | some href =>
          if href.isEmpty then fromImg
          else
            let href2 := absolutize_url href (pyOr e.link cfg.SITE_BASE)
            some (href2, pyOr enc.etype (pyOr (guessMime href2) (("image/jpeg").data)))
      | none => fromImg
  | [] => fromImg

/-! ### Timestamps -/

/-- An aware UTC `datetime.datetime`. -/
structure DateTime where
  year : Nat
  month : Nat
  day : Nat
  hour : Nat
  minute : Nat
  second : Nat
  deriving DecidableEq

/-- Gregorian leap year. -/
def isLeapYear (y : Nat) : Bool := y % 4 == 0 && (y % 100 != 0 || y % 400 == 0)

/-- Days in a month. -/
def daysInMonth (y m : Nat) : Nat :=
  if m == 2 then (if isLeapYear y then 29 else 28)
  else if m == 4 || m == 6 || m == 9 || m == 11 then 30
  else 31

/-- Constructor `datetime.datetime(*val[:6], tzinfo=utc)`: succeeds exactly on
field values the constructor accepts. -/
def mkDatetime (t : TimeTuple) : Option DateTime :=
  if 1 ≤ t.year ∧ t.year ≤ 9999 ∧ 1 ≤ t.month ∧ t.month ≤ 12 ∧
     1 ≤ t.day ∧ t.day ≤ daysInMonth t.year t.month ∧
     t.hour ≤ 23 ∧ t.minute ≤ 59 ∧ t.second ≤ 59 then
    some ⟨t.year, t.month, t.day, t.hour, t.minute, t.second⟩
  else none

/-- Function `safe_pubdate` from src/main.py: the first of `published_parsed`,
`updated_parsed` that is present and constructs a valid datetime, else the
current time. -/
def safe_pubdate (e : Entry) (now : DateTime) : DateTime :=
  match e.published_parsed.bind mkDatetime with
  | some dt => dt
  | none => (e.updated_parsed.bind mkDatetime).getD now

/-- Day count before January 1 of the given year (proleptic Gregorian). -/
def daysBeforeYear (y : Nat) : Nat :=
  365 * (y - 1) + (y - 1) / 4 - (y - 1) / 100 + (y - 1) / 400

/-- Day count from January 1 to the first of the given month. -/
def daysBeforeMonth (y m : Nat) : Nat :=
  (((List.range (m - 1)).map fun i => daysInMonth y (i + 1))).sum

/-- Ordinal day count as in `datetime.toordinal`: 0001-01-01 is day 1 (a Monday). -/
def toOrdinal (dt : DateTime) : Nat :=
  daysBeforeYear dt.year + daysBeforeMonth dt.year dt.month + dt.day

/-- Decimal digits of a natural number. -/
def natDigits (n : Nat) : Str := Nat.toDigits 10 n

/-- Zero-padded two-digit field. -/
def pad2 (n : Nat) : Str := if n < 10 then '0' :: natDigits n else natDigits n

/-- Zero-padded four-digit year. -/
def pad4 (n : Nat) : Str :=
  let d := natDigits n
  List.replicate (4 - d.length) '0' ++ d

/-- Weekday abbreviations of `%a`, Monday first. -/
def weekdayAbbrev (i : Nat) : Str :=
  ([("Mon").data, ("Tue").data, ("Wed").data, ("Thu").data,
    ("Fri").data, ("Sat").data, ("Sun").data]).getD i []

/-- Month abbreviations of `%b`. -/
def monthAbbrev (m : Nat) : Str :=
  ([("Jan").data, ("Feb").data, ("Mar").data, ("Apr").data, ("May").data,
    ("Jun").data, ("Jul").data, ("Aug").data, ("Sep").data, ("Oct").data,
    ("Nov").data, ("Dec").data]).getD (m - 1) []

/-- Function `dt_to_rfc822` from src/main.py:
`dt.astimezone(utc).strftime("%a, %d %b %Y %H:%M:%S %z")` (the datetimes
here are already UTC, so `%z` renders `+0000`). -/
def dt_to_rfc822 (dt : DateTime) : Str :=
  weekdayAbbrev ((toOrdinal dt + 6) % 7) ++ (", ").data ++
  pad2 dt.day ++ [(' ')] ++ monthAbbrev dt.month ++ [(' ')] ++ pad4 dt.year ++ [(' ')] ++
  pad2 dt.hour ++ [(':')] ++ pad2 dt.minute ++ [(':')] ++ pad2 dt.second ++ (" +0000").data

/-! ### Feed builders -/

/-- The placeholder title for entries without one. -/
def defaultTitle : Str := ("Без названия").data

/-- Join the stripped, non-empty text nodes of a token list with a
separator: BeautifulSoup's `get_text(sep, strip=True)`. -/
def getTextSep (sep : Str) (toks : List Tok) : Str :=
  List.intercalate sep (toks.filterMap fun t =>
    match t with
    | Tok.text s => let s2 := pyStrip s; if s2.isEmpty then none else some s2
    | _ => none)

/-- First `soup.find("p")`, then `p.get_text(" ", strip=True)` on that
paragraph's contents (the tokens up to its closing tag; paragraph elements
do not nest in an html5lib tree). -/
def firstPText (toks : List Tok) : Option Str :=
  match toks.dropWhile fun t => !isOpenTag (("p").data) t with
  | [] => none
  | _ :: rest =>
      some (getTextSep [(' ')] (rest.takeWhile fun t =>
        match t with
        | Tok.close n => !(n == ("p").data)
        | _ => true))

/-- One `<item>` of the Zen (rich-profile) document. -/
structure ZenItem where
  title : Str
  link : Str
  guid : Str
  pubDate : Str
  content_encoded : List Tok
  yandex_full_text : List Tok
  enclosure : Option (Str × Str)
  author : Option Str
  categories : List Str
  description : Option Str
  deriving DecidableEq

/-- The rich-profile item built for one entry by `build_zen_xml`. -/
def zenItemOf (cfg : Config) (now : DateTime) (e : Entry) : ZenItem :=
  let em := extract_main_html cfg e
  let full := sanitize_for_zen em.1
  { title := pyOr e.title defaultTitle
    link := pyOr e.link cfg.FEED_LINK
    guid := guid_for e
    pubDate := dt_to_rfc822 (safe_pubdate e now)
    content_encoded := full
    yandex_full_text := full
    enclosure := pick_enclosure cfg e em.2
    author := if pyTruthy e.author then some (e.author.getD []) else none
    categories := (e.tags.take 10).filterMap fun t =>
      if pyTruthy t.term then some (t.term.getD []) else none
    description := (firstPText full).map fun s => s.take 500 }

/-- One `<item>` of the Telegram (restricted-profile) document. -/
structure TgItem where
  title : Str
  link : Str
  guid : Str
  pubDate : Str
  description : Str
  deriving DecidableEq

/-- The restricted-profile item built for one entry by `build_tg_xml`:
extract, sanitize with the restricted profile, flatten to plain text with
newline separators, truncate to `TELEGRAM_MAX`. -/
def tgItemOf (cfg : Config) (now : DateTime) (e : Entry) : TgItem :=
  let em := extract_main_html cfg e
  let safeHtml := sanitize_for_tg em.1
  let plain := getTextSep [('\n')] safeHtml
  { title := pyOr e.title defaultTitle
    link := pyOr e.link cfg.FEED_LINK
    guid := guid_for e
    pubDate := dt_to_rfc822 (safe_pubdate e now)
    description := chunk_plain_text plain cfg.TELEGRAM_MAX }

/-- Serialize a token stream back to markup. -/
def renderToks (toks : List Tok) : Str :=
  toks.foldr
    (fun t acc =>
      match t with
      | Tok.text s => s ++ acc
      | Tok.tag n a =>
          [('<')] ++ n ++
            (a.foldr (fun kv acc2 => [(' ')] ++ kv.1 ++ ("=\"").data ++ kv.2 ++ [('"')] ++ acc2) []) ++
            [('>')] ++ acc
      | Tok.close n => ("</").data ++ n ++ [('>')] ++ acc)
    []

/-- An XML element with text content. -/
def xmlEl (name body : Str) : Str :=
  [('<')] ++ name ++ [('>')] ++ body ++ ("</").data ++ name ++ [('>')]

/-- An optional XML element. -/
def xmlElOpt (name : Str) (body : Option Str) : Str :=
  match body with
  | some b => xmlEl name b
  | none => []

/-- The XML declaration emitted by `etree.tostring(..., xml_declaration=True)`. -/
def xmlDecl : Str := ("<?xml version='1.0' encoding='utf-8'?>\n").data

/-- Render one rich-profile item. -/
def renderZenItem (it : ZenItem) : Str :=
  xmlEl (("item").data)
    (xmlEl (("title").data) it.title ++
     xmlEl (("link").data) it.link ++
     xmlEl (("guid").data) it.guid ++
     xmlEl (("pubDate").data) it.pubDate ++
     xmlEl (("content:encoded").data) (("<![CDATA[").data ++ renderToks it.content_encoded ++ ("]]>").data) ++
     xmlEl (("yandex:full-text").data) (("<![CDATA[").data ++ renderToks it.yandex_full_text ++ ("]]>").data) ++
     (match it.enclosure with
      | some (u, m) =>
          ("<enclosure url=\"").data ++ u ++ ("\" type=\"").data ++ m ++ ("\"/>").data ++
          ("<media:content url=\"").data ++ u ++ ("\" type=\"").data ++ m ++ ("\"/>").data
      | none => []) ++
     xmlElOpt (("author").data) it.author ++
     (it.categories.foldr (fun c acc => xmlEl (("category").data) c ++ acc) []) ++
     xmlElOpt (("description").data) it.description)

/-- Function `build_zen_xml` from src/main.py, as serialized bytes. -/
def build_zen_xml (cfg : Config) (now : DateTime) (entries : List Entry) : Str :=
  xmlDecl ++
  (("<rss xmlns:content=\"http://purl.org/rss/1.0/modules/content/\" xmlns:atom=\"http://www.w3.org/2005/Atom\" xmlns:yandex=\"http://news.yandex.ru\" xmlns:media=\"http://search.yahoo.com/mrss/\" version=\"2.0\"><channel>").data ++
  xmlEl (("title").data) cfg.FEED_TITLE ++
  xmlEl (("link").data) cfg.FEED_LINK ++
  xmlEl (("description").data) cfg.FEED_DESCRIPTION ++
  ("<atom:link href=\"").data ++ (cfg.FEED_LINK.reverse.dropWhile (fun c => c == '/')).reverse ++
    ("/zen.xml\" rel=\"self\" type=\"application/rss+xml\"/>").data ++
  (entries.foldr (fun e acc => renderZenItem (zenItemOf cfg now e) ++ acc) []) ++
  ("</channel></rss>").data)

/-- Render one restricted-profile item. -/
def renderTgItem (it : TgItem) : Str :=
  xmlEl (("item").data)
    (xmlEl (("title").data) it.title ++
     xmlEl (("link").data) it.link ++
     xmlEl (("guid").data) it.guid ++
     xmlEl (("pubDate").data) it.pubDate ++
     xmlEl (("description").data) it.description)

/-- Function `build_tg_xml` from src/main.py, as serialized bytes. -/
def build_tg_xml (cfg : Config) (now : DateTime) (entries : List Entry) : Str :=
  xmlDecl ++
  (("<rss version=\"2.0\"><channel>").data ++
  xmlEl (("title").data) (cfg.FEED_TITLE ++ (" — Telegram").data) ++
  xmlEl (("link").data) cfg.FEED_LINK ++
  xmlEl (("description").data) (("Лента, подготовленная для автопостинга в Телеграм").data) ++
  (entries.foldr (fun e acc => renderTgItem (tgItemOf cfg now e) ++ acc) []) ++
  ("</channel></rss>").data)

/-! ### Fetch, parse and the refresh cache -/

/-- An exception value: either a transport-level error raised by
`requests` / `http_get`, or an `HTTPException(code, msg)`, or an unexpected
build-time failure (the spec's BuildFailure). -/
inductive PyErr where
  | httpError (msg : Str)
  | httpException (code : Nat) (msg : Str)
  | buildFailure (msg : Str)
  deriving DecidableEq

/-- The result of `feedparser.parse`: the malformed-input flag and the
recovered entries. -/
structure ParsedFeed where
  bozo : Bool
  entries : List Entry
  deriving DecidableEq

/-- The detail message of the 502 raised on an unparseable feed. -/
def sourceUnavailableMsg : Str := ("Не удалось распарсить исходный RSS").data

/-- Function `fetch_source_feed` from src/main.py, over the outcome of
`http_get` + `feedparser.parse` (the transport and the parser are external
primitives, so their outcome is the function's input): propagates a
transport error, raises `HTTPException(502, ...)` when the parse was
flagged malformed and recovered zero entries, and otherwise returns the
parsed feed. -/
def fetch_source_feed (httpRes : Except PyErr ParsedFeed) : Except PyErr ParsedFeed :=
  match httpRes with
  | Except.error er => Except.error er
  | Except.ok fp =>
      if fp.bozo && fp.entries.isEmpty then
        Except.error (PyErr.httpException 502 sourceUnavailableMsg)
      else Except.ok fp

/-- The module-level `_cache` dict: `{"t": 0, "zen": b"", "tg": b""}`. -/
structure Cache where
  t : Int
  zen : Str
  tg : Str
  deriving DecidableEq

/-- The cache at process start. -/
def initCache : Cache := ⟨0, [], []⟩

/-- Outcome of one `maybe_refresh_cache` call: the cache state afterwards,
whether an upstream fetch was attempted, and the exception propagated to
the caller, if any. -/
structure RefreshOutcome where
  cache : Cache
  fetched : Bool
  err : Option PyErr
  deriving DecidableEq

/-- Function `maybe_refresh_cache` from src/main.py with the mutable `_cache` made
explicit.  `now` is `time.time()`; the fetch outcome and the two document
builds are parameters because each can raise (builds raise the spec's
BuildFailure, e.g. via lxml, and an exception propagates out of the
function leaving any assignments already made in place — the dict fields
are written one after another at lines 259-261 of src/main.py). -/
def maybe_refresh_cache (force : Bool) (now ttl : Int) (c : Cache)
    (httpRes : Except PyErr ParsedFeed)
    (buildZen buildTg : ParsedFeed → Except PyErr Str) : RefreshOutcome :=
  if !force && decide (now - c.t < ttl) && !c.zen.isEmpty && !c.tg.isEmpty then
    ⟨c, false, none⟩
  else
    match fetch_source_feed httpRes with
    | Except.error er => ⟨c, true, some er⟩
    | Except.ok fp =>
        match buildZen fp with
        | Except.error er => ⟨c, true, some er⟩
        | Except.ok z =>
            match buildTg fp with
            | Except.error er => ⟨{ c with zen := z }, true, some er⟩
            | Except.ok tg => ⟨⟨now, z, tg⟩, true, none⟩

/-- Function `maybe_refresh_cache` with the two concrete (never-raising in this
embedding) document builders of src/main.py plugged in.  `nowDt` is the
wall-clock datetime used for missing publish dates. -/
def refreshConcrete (cfg : Config) (force : Bool) (now : Int) (nowDt : DateTime)
    (c : Cache) (httpRes : Except PyErr ParsedFeed) : RefreshOutcome :=
  maybe_refresh_cache force now cfg.CACHE_TTL c httpRes
    (fun fp => Except.ok (build_zen_xml cfg nowDt fp.entries))
    (fun fp => Except.ok (build_tg_xml cfg nowDt fp.entries))

/-- An entry with every field absent, the base point for concrete test
entries. -/
def emptyEntry : Entry :=
  { id := none, guid := none, link := none, title := none, published := none,
    published_parsed := none, updated_parsed := none, content := [],
    summary := [], description := [], author := none, tags := [], enclosures := [] }

/-- A concrete configuration whose site base and channel link differ
(both are independently configurable environment variables). -/
def cexConfig : Config :=
  { SOURCE_FEED_URL := ("https://upstream.example/feed.xml").data
    SITE_BASE := ("https://site.example/").data
    FEED_TITLE := ("T").data
    FEED_LINK := ("https://feed.example/").data
    FEED_DESCRIPTION := ("D").data
    TELEGRAM_MAX := 4096
    CACHE_TTL := 600 }

/-! ### Generic list lemmas -/

theorem length_dropWhile_le {α : Type} (p : α → Bool) (l : List α) :
    (l.dropWhile p).length ≤ l.length := by
  induction l with
  | nil => simp
  | cons a t ih =>
      rw [List.dropWhile_cons]
      by_cases h : p a = true
      · simp only [h, if_true]
        exact Nat.le_succ_of_le ih
      · simp [h]

theorem dropWhile_head_false {α : Type} {p : α → Bool} {l : List α} {a : α} {t : List α}
    (h : l.dropWhile p = a :: t) : p a = false := by
  induction l with
  | nil => simp at h
  | cons b u ih =>
      rw [List.dropWhile_cons] at h
      by_cases hb : p b = true
      · exact ih (by simpa [hb] using h)
      · obtain ⟨rfl, -⟩ := by simpa [hb] using h
        simpa using hb

theorem head?_append_of_ne_nil {α : Type} {l : List α} (l2 : List α) (h : l ≠ []) :
    (l ++ l2).head? = l.head? := by
  cases l with
  | nil => exact absurd rfl h
  | cons a t => rfl

/-! ### Lemmas about the Python string helpers -/

theorem length_lstrip_le (s : Str) : (lstrip s).length ≤ s.length :=
  length_dropWhile_le _ s

theorem length_rstrip_le (s : Str) : (rstrip s).length ≤ s.length := by
  unfold rstrip
  rw [List.length_reverse]
  calc (s.reverse.dropWhile isPySpace).length ≤ s.reverse.length := length_dropWhile_le _ _
    _ = s.length := List.length_reverse s

theorem length_pyStrip_le (s : Str) : (pyStrip s).length ≤ s.length :=
  le_trans (length_lstrip_le _) (length_rstrip_le _)

theorem length_subTrailingWsWord_le (s : Str) : (subTrailingWsWord s).length ≤ s.length := by
  unfold subTrailingWsWord
  by_cases h : (s.reverse.dropWhile (fun c => !isPySpace c)).isEmpty
  · simp [h]
  · rw [if_neg h]
    rw [List.length_reverse]
    calc ((s.reverse.dropWhile (fun c => !isPySpace c)).dropWhile isPySpace).length
        ≤ (s.reverse.dropWhile (fun c => !isPySpace c)).length := length_dropWhile_le _ _
      _ ≤ s.reverse.length := length_dropWhile_le _ _
      _ = s.length := List.length_reverse s

theorem dropWhile_eq_self_of_none {α : Type} {p : α → Bool} {l : List α}
    (h : ∀ c ∈ l, p c = false) : l.dropWhile p = l := by
  cases l with
  | nil => rfl
  | cons a t =>
      rw [List.dropWhile_cons]
      simp [h a (by simp)]

theorem lstrip_of_no_ws {s : Str} (h : ∀ c ∈ s, isPySpace c = false) : lstrip s = s :=
  dropWhile_eq_self_of_none h

theorem rstrip_of_no_ws {s : Str} (h : ∀ c ∈ s, isPySpace c = false) : rstrip s = s := by
  unfold rstrip
  rw [dropWhile_eq_self_of_none (fun c hc => h c (List.mem_reverse.mp hc)), List.reverse_reverse]

theorem pyStrip_of_no_ws {s : Str} (h : ∀ c ∈ s, isPySpace c = false) : pyStrip s = s := by
  unfold pyStrip
  rw [rstrip_of_no_ws h, lstrip_of_no_ws h]

theorem subTrailingWsWord_of_no_ws {s : Str} (h : s.any isPySpace = false) :
    subTrailingWsWord s = s := by
  have h2 : s.reverse.dropWhile (fun c => !isPySpace c) = [] := by
    rw [List.dropWhile_eq_nil_iff]
    intro x hx
    have hx2 : x ∈ s := List.mem_reverse.mp hx
    have h3 : isPySpace x = false := by
      by_contra hc
      have : s.any isPySpace = true :=
        List.any_eq_true.mpr ⟨x, hx2, by simpa using hc⟩
      rw [this] at h
      exact absurd h (by simp)
    simp [h3]
  unfold subTrailingWsWord
  simp [h2]

theorem any_false_all {α : Type} (p : α → Bool) (l : List α) (h : l.any p = false) :
    ∀ c ∈ l, p c = false := by
  intro c hc
  by_contra hcc
  have : l.any p = true := List.any_eq_true.mpr ⟨c, hc, by simpa using hcc⟩
  rw [this] at h
  exact absurd h (by simp)

theorem no_ws_of_any_false {s : Str} (h : s.any isPySpace = false) :
    ∀ c ∈ s, isPySpace c = false :=
  any_false_all _ _ h

theorem pyOr_of_truthy {o : Option Str} (b : Str) (h : pyTruthy o = true) :
    pyOr o b = o.getD [] := by
  cases o with
  | none => simp [pyTruthy] at h
  | some s =>
      have : s.isEmpty = false := by simpa [pyTruthy] using h
      simp [pyOr, this]

theorem pyOr_of_falsy {o : Option Str} (b : Str) (h : pyTruthy o = false) :
    pyOr o b = b := by
  cases o with
  | none => simp [pyOr]
  | some s =>
      have : s.isEmpty = true := by simpa [pyTruthy] using h
      simp [pyOr, this]

theorem take_of_append_eq {α : Type} {u v w : List α} (h : w = u ++ v) :
    w.take u.length = u := by
  rw [h]
  exact List.take_left u v

theorem drop_of_append_eq {α : Type} {u v w : List α} (h : w = u ++ v) :
    w.drop u.length = v := by
  rw [h]
  exact List.drop_left u v

theorem reverse_head?_mem {α : Type} {l : List α} (h : l ≠ []) :
    ∃ c, l.reverse.head? = some c ∧ c ∈ l := by
  cases hr : l.reverse with
  | nil => exact absurd (by simpa using congrArg List.reverse hr) h
  | cons a t =>
      refine ⟨a, rfl, ?_⟩
      have : a ∈ l.reverse := by rw [hr]; exact List.mem_cons_self a t
      exact List.mem_reverse.mp this

theorem boundary_of_has_ws {s : Str} {n : Nat}
    (hws : (s.take n).any isPySpace = true) :
    endsAtWsBoundaryB s (pyStrip (subTrailingWsWord (s.take n))) = true := by
  have hq : ∀ c, (fun c => !isPySpace c) c = false ↔ isPySpace c = true := by
    intro c
    simp
  -- the run decomposition of the cut prefix
  have hAne : (s.take n).reverse.dropWhile (fun c => !isPySpace c) ≠ [] := by
    intro hnil
    have hall := List.dropWhile_eq_nil_iff.mp hnil
    obtain ⟨x, hx, hxws⟩ := List.any_eq_true.mp hws
    have := hall x (List.mem_reverse.mpr hx)
    simp [hxws] at this
  have hsub : subTrailingWsWord (s.take n) =
      (((s.take n).reverse.dropWhile (fun c => !isPySpace c)).dropWhile isPySpace).reverse := by
    unfold subTrailingWsWord
    rw [if_neg (by simpa [List.isEmpty_iff] using hAne)]
  -- abbreviations (definitional)
  obtain ⟨a, t, hAcons⟩ := List.exists_cons_of_ne_nil hAne
  have haws : isPySpace a = true := by
    have := dropWhile_head_false hAcons
    simpa using this
  have hW0 : ((s.take n).reverse.dropWhile (fun c => !isPySpace c)).takeWhile isPySpace =
      a :: t.takeWhile isPySpace := by
    rw [hAcons, List.takeWhile_cons, if_pos haws]
  have hW0ne : ((s.take n).reverse.dropWhile (fun c => !isPySpace c)).takeWhile isPySpace ≠ [] := by
    rw [hW0]
    exact List.cons_ne_nil _ _
  -- s decomposes as  B.reverse ++ (W0.reverse ++ (TW.reverse ++ s.drop n))
  have hA : (((s.take n).reverse.dropWhile (fun c => !isPySpace c)).takeWhile isPySpace) ++
      (((s.take n).reverse.dropWhile (fun c => !isPySpace c)).dropWhile isPySpace) =
      (s.take n).reverse.dropWhile (fun c => !isPySpace c) :=
    List.takeWhile_append_dropWhile _ _
  have hR : ((s.take n).reverse.takeWhile (fun c => !isPySpace c)) ++
      ((s.take n).reverse.dropWhile (fun c => !isPySpace c)) = (s.take n).reverse :=
    List.takeWhile_append_dropWhile _ _
  have h1 : ((s.take n).reverse.takeWhile (fun c => !isPySpace c)) ++
      ((((s.take n).reverse.dropWhile (fun c => !isPySpace c)).takeWhile isPySpace) ++
       (((s.take n).reverse.dropWhile (fun c => !isPySpace c)).dropWhile isPySpace)) =
      (s.take n).reverse := by
    rw [hA, hR]
  have hcutdec : s.take n =
      (((s.take n).reverse.dropWhile (fun c => !isPySpace c)).dropWhile isPySpace).reverse ++
      ((((s.take n).reverse.dropWhile (fun c => !isPySpace c)).takeWhile isPySpace).reverse ++
       ((s.take n).reverse.takeWhile (fun c => !isPySpace c)).reverse) := by
    have h2 := congrArg List.reverse h1
    rw [List.reverse_reverse] at h2
    refine Eq.trans h2.symm ?_
    simp only [List.reverse_append, List.append_assoc]
  have hsdec : s =
      (((s.take n).reverse.dropWhile (fun c => !isPySpace c)).dropWhile isPySpace).reverse ++
      (((((s.take n).reverse.dropWhile (fun c => !isPySpace c)).takeWhile isPySpace).reverse ++
        ((s.take n).reverse.takeWhile (fun c => !isPySpace c)).reverse) ++ s.drop n) := by
    conv_lhs => rw [← List.take_append_drop n s]
    rw [← List.append_assoc, ← hcutdec]
  -- the boundary witness index
  refine List.any_eq_true.mpr ?_
  refine ⟨(((s.take n).reverse.dropWhile (fun c => !isPySpace c)).dropWhile isPySpace).reverse.length,
    ?_, ?_⟩
  · refine List.mem_range.mpr ?_
    have := congrArg List.length hsdec
    rw [List.length_append] at this
    omega
  · have htake := take_of_append_eq hsdec
    have hdrop := drop_of_append_eq hsdec
    obtain ⟨c, hc, hcmem⟩ := reverse_head?_mem hW0ne
    have hcws : isPySpace c = true := List.mem_takeWhile_imp hcmem
    have hhead : (s.drop
        ((((s.take n).reverse.dropWhile (fun c => !isPySpace c)).dropWhile isPySpace).reverse.length)).head? =
        some c := by
      rw [hdrop, List.append_assoc,
        head?_append_of_ne_nil _ (by simpa using hW0ne), hc]
    rw [htake, hsub, hhead]
    simp [hcws]

/-! ### Claim C3 -/

/-- C3 (counterexample): the claim fails as stated.  With the configured
maximum `0` and input `"ab"`, the output `"a…"` has length `2 > 0`
(the Python slice `s[:-1]` only removes one character); and with maximum
`5` and the single-word input `"abcdef"`, the output is `"abcd…"`, whose
text before the ellipsis is a split word, not ending at any whitespace
boundary of the source. -/
theorem chunk_plain_text_counterexample :
    (¬ (((chunk_plain_text ("ab").data 0).length : Int) ≤ 0)) ∧
    chunk_plain_text ("abcdef").data 5 = ("abcd").data ++ [ellipsisChar] ∧
    endsAtWsBoundaryB ("abcdef").data ("abcd").data = false := by
  refine ⟨by decide, by decide, by decide⟩

/-- C3 (amended): for a configured maximum of at least one character,
`chunk_plain_text s m` returns `s` unchanged when it fits, and otherwise
returns at most `m` characters ending in an appended ellipsis; the text
before the ellipsis is trimmed back to a whitespace boundary (so it has no
trailing partial word) whenever the `m - 1`-character cut contains any
whitespace, while for a whitespace-free cut (one word longer than the
limit) it is the raw `m - 1`-character cut, i.e. a split word. -/
theorem chunk_plain_text_amended (s : Str) (m : Int) (hm : 1 ≤ m) :
    ((s.length : Int) ≤ m → chunk_plain_text s m = s) ∧
    ((s.length : Int) > m →
      ((chunk_plain_text s m).length : Int) ≤ m ∧
      ∃ core, chunk_plain_text s m = core ++ [ellipsisChar] ∧
        ((s.take (m - 1).toNat).any isPySpace = true → endsAtWsBoundaryB s core = true) ∧
        ((s.take (m - 1).toNat).any isPySpace = false → core = s.take (m - 1).toNat)) := by
  constructor
  · intro hle
    unfold chunk_plain_text
    rw [if_pos hle]
  · intro hgt
    have hnle : ¬ ((s.length : Int) ≤ m) := by omega
    have hcut : pySliceTo s (m - 1) = s.take (m - 1).toNat := by
      unfold pySliceTo
      rw [if_pos (by omega : (0:Int) ≤ m - 1)]
    have hchunk : chunk_plain_text s m =
        pyStrip (subTrailingWsWord (s.take (m - 1).toNat)) ++ [ellipsisChar] := by
      simp only [chunk_plain_text]
      rw [if_neg hnle, hcut]
    refine ⟨?_, pyStrip (subTrailingWsWord (s.take (m - 1).toNat)), hchunk, ?_, ?_⟩
    · rw [hchunk, List.length_append]
      have h1 : (pyStrip (subTrailingWsWord (s.take (m - 1).toNat))).length ≤
          (s.take (m - 1).toNat).length :=
        le_trans (length_pyStrip_le _) (length_subTrailingWsWord_le _)
      have h2 : (s.take (m - 1).toNat).length ≤ (m - 1).toNat := List.length_take_le _ _
      have h3 : ((m - 1).toNat : Int) = m - 1 := Int.toNat_of_nonneg (by omega)
      simp only [List.length_cons, List.length_nil]
      omega
    · intro hws
      exact boundary_of_has_ws hws
    · intro hnws
      rw [subTrailingWsWord_of_no_ws hnws, pyStrip_of_no_ws (no_ws_of_any_false hnws)]

/-- C3 witness: the amended theorem applied at `s = "hello world abc"`,
`m = 9`. -/
theorem chunk_plain_text_amended_witness :
    ((("hello world abc").data.length : Int) > 9) ∧
    ((chunk_plain_text ("hello world abc").data 9).length : Int) ≤ 9 :=
  ⟨by decide, ((chunk_plain_text_amended (("hello world abc").data) 9 (by decide)).2 (by decide)).1⟩

/-! ### Claim C5 -/

theorem length_hexWord32 (w : Nat) : (hexWord32 w).length = 8 := by
  simp [hexWord32]

theorem length_sha256Hex (msg : List Nat) : (sha256Hex msg).length = 64 := by
  simp [sha256Hex, List.length_append, length_hexWord32]

/-- C5: the derived GUID is a fixed-width (64 hex characters) digest that
is a pure function of the resolved identifier source; the source is, in
priority order, the first truthy of the entry's `id`, `guid`, `link`, and
otherwise the concatenation of `title` and the `published` string; entries
agreeing on the resolved source get the same digest regardless of every
other field, and the digest is deterministic across refreshes. -/
theorem guid_for_spec :
    (∀ e1 e2 : Entry, guid_source e1 = guid_source e2 → guid_for e1 = guid_for e2) ∧
    (∀ e e' : Entry, e'.id = e.id → e'.guid = e.guid → e'.link = e.link →
      e'.title = e.title → e'.published = e.published → guid_for e' = guid_for e) ∧
    (∀ e : Entry, pyTruthy e.id = true → guid_source e = e.id.getD []) ∧
    (∀ e : Entry, pyTruthy e.id = false → pyTruthy e.guid = true →
      guid_source e = e.guid.getD []) ∧
    (∀ e : Entry, pyTruthy e.id = false → pyTruthy e.guid = false →
      pyTruthy e.link = true → guid_source e = e.link.getD []) ∧
    (∀ e : Entry, pyTruthy e.id = false → pyTruthy e.guid = false →
      pyTruthy e.link = false →
      guid_source e = e.title.getD [] ++ e.published.getD []) ∧
    (∀ e : Entry, (guid_for e).length = 64) := by
  have hOrT : ∀ (o : Option Str) (b : Str), pyTruthy o = true → pyOr o b = o.getD [] := by
    intro o b h
    cases o with
    | none => simp [pyTruthy] at h
    | some s =>
        have : s.isEmpty = false := by simpa [pyTruthy] using h
        simp [pyOr, this]
  have hOrF : ∀ (o : Option Str) (b : Str), pyTruthy o = false → pyOr o b = b := by
    intro o b h
    cases o with
    | none => simp [pyOr]
    | some s =>
        have : s.isEmpty = true := by simpa [pyTruthy] using h
        simp [pyOr, this]
  refine ⟨?_, ?_, ?_, ?_, ?_, ?_, fun e => length_sha256Hex _⟩
  · intro e1 e2 h
    unfold guid_for
    rw [h]
  · intro e e' h1 h2 h3 h4 h5
    unfold guid_for guid_source
    rw [h1, h2, h3, h4, h5]
  · intro e h
    unfold guid_source
    rw [hOrT _ _ h]
  · intro e h1 h2
    unfold guid_source
    rw [hOrF _ _ h1, hOrT _ _ h2]
  · intro e h1 h2 h3
    unfold guid_source
    rw [hOrF _ _ h1, hOrF _ _ h2, hOrT _ _ h3]
  · intro e h1 h2 h3
    unfold guid_source
    rw [hOrF _ _ h1, hOrF _ _ h2, hOrF _ _ h3]

/-- C5 witness: two entries sharing the resolved source `"x"` but differing
in `author` get equal digests. -/
theorem guid_for_spec_witness :
    guid_source { emptyEntry with id := some (("x").data), author := some (("A").data) } =
      guid_source { emptyEntry with id := some (("x").data) } ∧
    guid_for { emptyEntry with id := some (("x").data), author := some (("A").data) } =
      guid_for { emptyEntry with id := some (("x").data) } :=
  ⟨by decide, guid_for_spec.1 _ _ (by decide)⟩

/-! ### Claim C6 -/

/-- C6 (counterexample): the claim fails as stated.  With the site base and
the channel link configured to different URLs, an entry with no link gets
`FEED_LINK` (the channel link), not the configured site base, as its item
link in both builders. -/
theorem link_fallback_counterexample :
    (zenItemOf cexConfig ⟨2026, 1, 1, 0, 0, 0⟩ emptyEntry).link = cexConfig.FEED_LINK ∧
    (tgItemOf cexConfig ⟨2026, 1, 1, 0, 0, 0⟩ emptyEntry).link = cexConfig.FEED_LINK ∧
    cexConfig.FEED_LINK ≠ cexConfig.SITE_BASE := by
  refine ⟨by decide, by decide, by decide⟩

/-- C6 (amended): an entry with no usable link and no parsed dates still
yields a complete output item in both builders (the builders are total):
the item link falls back to the configured channel link `FEED_LINK` (which
equals the site base only under the default configuration), and the
pubDate falls back to the current wall-clock time rendered per RFC-822. -/
theorem link_pubdate_fallback_amended (cfg : Config) (now : DateTime) (e : Entry)
    (hlink : pyTruthy e.link = false)
    (hpub : e.published_parsed = none) (hupd : e.updated_parsed = none) :
    (zenItemOf cfg now e).link = cfg.FEED_LINK ∧
    (tgItemOf cfg now e).link = cfg.FEED_LINK ∧
    (zenItemOf cfg now e).pubDate = dt_to_rfc822 now ∧
    (tgItemOf cfg now e).pubDate = dt_to_rfc822 now := by
  have hOr : pyOr e.link cfg.FEED_LINK = cfg.FEED_LINK := pyOr_of_falsy _ hlink
  have hsp : safe_pubdate e now = now := by
    unfold safe_pubdate
    rw [hpub, hupd]
    rfl
  refine ⟨?_, ?_, ?_, ?_⟩ <;> simp [zenItemOf, tgItemOf, hOr, hsp]

/-- C6 witness: the amended theorem applied to an entry with every field
absent. -/
theorem link_pubdate_fallback_amended_witness :
    (zenItemOf cexConfig ⟨2026, 5, 4, 3, 2, 1⟩ emptyEntry).pubDate =
      dt_to_rfc822 ⟨2026, 5, 4, 3, 2, 1⟩ ∧
    (tgItemOf cexConfig ⟨2026, 5, 4, 3, 2, 1⟩ emptyEntry).link = cexConfig.FEED_LINK :=
  ⟨(link_pubdate_fallback_amended cexConfig ⟨2026, 5, 4, 3, 2, 1⟩ emptyEntry
      (by decide) rfl rfl).2.2.1,
   (link_pubdate_fallback_amended cexConfig ⟨2026, 5, 4, 3, 2, 1⟩ emptyEntry
      (by decide) rfl rfl).2.1⟩

/-! ### Claim C10 -/

/-- C10: when the sanitized rich-profile body of an entry contains no
paragraph element, the rich-profile item carries no description at all. -/
theorem no_paragraph_no_description (cfg : Config) (now : DateTime) (e : Entry)
    (h : (sanitize_for_zen (extract_main_html cfg e).1).any (isOpenTag (("p").data)) = false) :
    (zenItemOf cfg now e).description = none := by
  have h2 : (sanitize_for_zen (extract_main_html cfg e).1).dropWhile
      (fun t => !isOpenTag (("p").data) t) = [] := by
    rw [List.dropWhile_eq_nil_iff]
    intro x hx
    simp [any_false_all _ _ h x hx]
  simp [zenItemOf, firstPText, h2]

/-- C10 witness: an entry whose body is bare text gets no description. -/
theorem no_paragraph_no_description_witness :
    ((sanitize_for_zen (extract_main_html cexConfig
        { emptyEntry with summary := [Tok.text (("hi").data)] }).1).any
      (isOpenTag (("p").data)) = false) ∧
    (zenItemOf cexConfig ⟨2026, 1, 1, 0, 0, 0⟩
        { emptyEntry with summary := [Tok.text (("hi").data)] }).description = none :=
  ⟨by decide, no_paragraph_no_description cexConfig ⟨2026, 1, 1, 0, 0, 0⟩ _ (by decide)⟩

/-! ### Claims C1, C2, C7: the refresh cache -/

theorem ne_nil_of_append_left {α : Type} {a b : List α} (h : a ≠ []) : a ++ b ≠ [] := by
  intro hc
  exact h (List.append_eq_nil.mp hc).1

theorem build_zen_xml_ne_nil (cfg : Config) (now : DateTime) (entries : List Entry) :
    build_zen_xml cfg now entries ≠ [] := by
  unfold build_zen_xml
  exact ne_nil_of_append_left (by decide)

theorem build_tg_xml_ne_nil (cfg : Config) (now : DateTime) (entries : List Entry) :
    build_tg_xml cfg now entries ≠ [] := by
  unfold build_tg_xml
  exact ne_nil_of_append_left (by decide)

theorem isEmpty_false_of_ne_nil {α : Type} {l : List α} (h : l ≠ []) :
    l.isEmpty = false := by
  cases l with
  | nil => exact absurd rfl h
  | cons a t => rfl

/-- C1 (counterexample): the claim fails as stated.  When the restricted
document build raises after the rich build succeeded, the refresh has
failed, yet the cache now holds the rich document of the new fetch next to
the restricted document and timestamp of the old one — a mixed state the
claim says is never observable. -/
theorem refresh_not_atomic_counterexample :
    (maybe_refresh_cache false 1000 600 ⟨0, ("Z0").data, ("T0").data⟩
        (Except.ok ⟨false, [emptyEntry]⟩)
        (fun _ => Except.ok (("Z1").data))
        (fun _ => Except.error (PyErr.buildFailure (("boom").data)))).err.isSome = true ∧
    (maybe_refresh_cache false 1000 600 ⟨0, ("Z0").data, ("T0").data⟩
        (Except.ok ⟨false, [emptyEntry]⟩)
        (fun _ => Except.ok (("Z1").data))
        (fun _ => Except.error (PyErr.buildFailure (("boom").data)))).cache.zen = ("Z1").data ∧
    ("Z1").data ≠ ("Z0").data ∧
    (maybe_refresh_cache false 1000 600 ⟨0, ("Z0").data, ("T0").data⟩
        (Except.ok ⟨false, [emptyEntry]⟩)
        (fun _ => Except.ok (("Z1").data))
        (fun _ => Except.error (PyErr.buildFailure (("boom").data)))).cache.tg = ("T0").data ∧
    (maybe_refresh_cache false 1000 600 ⟨0, ("Z0").data, ("T0").data⟩
        (Except.ok ⟨false, [emptyEntry]⟩)
        (fun _ => Except.ok (("Z1").data))
        (fun _ => Except.error (PyErr.buildFailure (("boom").data)))).cache.t = 0 := by
  refine ⟨by decide, by decide, by decide, by decide, by decide⟩

/-- C1 (amended): how the cache really changes.  When fetch, parse and both
builds succeed, all three fields are replaced together from the same
fetch; when the fetch/parse or the rich build fails, every field keeps its
previous value; but when the restricted build fails after the rich build
succeeded, the rich document is already replaced while the restricted
document and the timestamp keep their previous values (the partial write
of lines 259-261). -/
theorem maybe_refresh_cache_amended (force : Bool) (now ttl : Int) (c : Cache)
    (httpRes : Except PyErr ParsedFeed) (bz bt : ParsedFeed → Except PyErr Str)
    (r : RefreshOutcome)
    (hr : maybe_refresh_cache force now ttl c httpRes bz bt = r) :
    (r.fetched = false → r.cache = c) ∧
    (r.err = none → r.fetched = true →
      ∃ fp, fetch_source_feed httpRes = Except.ok fp ∧
        r.cache.t = now ∧ bz fp = Except.ok r.cache.zen ∧ bt fp = Except.ok r.cache.tg) ∧
    (∀ er, fetch_source_feed httpRes = Except.error er → r.cache = c) ∧
    (∀ fp er, fetch_source_feed httpRes = Except.ok fp → bz fp = Except.error er →
      r.cache = c) ∧
    (∀ fp z er, fetch_source_feed httpRes = Except.ok fp → bz fp = Except.ok z →
      bt fp = Except.error er → r.fetched = true →
      r.cache.zen = z ∧ r.cache.tg = c.tg ∧ r.cache.t = c.t) := by
  unfold maybe_refresh_cache at hr
  by_cases hg : (!force && decide (now - c.t < ttl) && !c.zen.isEmpty && !c.tg.isEmpty) = true
  · rw [if_pos hg] at hr
    subst hr
    refine ⟨fun _ => rfl, ?_, fun er h => rfl, fun fp er h1 h2 => rfl, ?_⟩
    · intro h1 h2
      exact absurd h2 (by simp)
    · intro fp z er h1 h2 h3 h4
      exact absurd h4 (by simp)
  · rw [if_neg hg] at hr
    cases hf : fetch_source_feed httpRes with
    | error er0 =>
        rw [hf] at hr
        subst hr
        refine ⟨?_, ?_, fun er h => rfl, ?_, ?_⟩
        · intro h
          exact absurd h (by simp)
        · intro h1 h2
          exact absurd h1 (by simp)
        · intro fp er h1 h2
          exact absurd h1 (by simp)
        · intro fp z er h1 h2 h3 h4
          exact absurd h1 (by simp)
    | ok fp0 =>
        rw [hf] at hr
        cases hz : bz fp0 with
        | error er1 =>
            simp only [hz] at hr
            subst hr
            refine ⟨?_, ?_, ?_, fun fp er h1 h2 => rfl, ?_⟩
            · intro h
              exact absurd h (by simp)
            · intro h1 h2
              exact absurd h1 (by simp)
            · intro er h
              exact absurd h (by simp)
            · intro fp z er h1 h2 h3 h4
              injection h1 with h1e
              subst h1e
              rw [hz] at h2
              exact absurd h2 (by simp)
        | ok z0 =>
            simp only [hz] at hr
            cases ht : bt fp0 with
            | error er2 =>
                simp only [ht] at hr
                subst hr
                refine ⟨?_, ?_, ?_, ?_, ?_⟩
                · intro h
                  exact absurd h (by simp)
                · intro h1 h2
                  exact absurd h1 (by simp)
                · intro er h
                  exact absurd h (by simp)
                · intro fp er h1 h2
                  injection h1 with h1e
                  subst h1e
                  rw [hz] at h2
                  exact absurd h2 (by simp)
                · intro fp z er h1 h2 h3 h4
                  injection h1 with h1e
                  subst h1e
                  rw [hz] at h2
                  injection h2 with h2e
                  subst h2e
                  exact ⟨rfl, rfl, rfl⟩
            | ok t0 =>
                simp only [ht] at hr
                subst hr
                refine ⟨?_, ?_, ?_, ?_, ?_⟩
                · intro h
                  exact absurd h (by simp)
                · intro h1 h2
                  exact ⟨fp0, rfl, rfl, by rw [hz], by rw [ht]⟩
                · intro er h
                  exact absurd h (by simp)
                · intro fp er h1 h2
                  injection h1 with h1e
                  subst h1e
                  rw [hz] at h2
                  exact absurd h2 (by simp)
                · intro fp z er h1 h2 h3 h4
                  injection h1 with h1e
                  subst h1e
                  rw [ht] at h3
                  exact absurd h3 (by simp)

/-- C1 witness: the amended theorem's all-success case at a concrete
input. -/
theorem maybe_refresh_cache_amended_witness :
    ∃ fp, fetch_source_feed (Except.ok (⟨false, [emptyEntry]⟩ : ParsedFeed)) = Except.ok fp ∧
      (⟨⟨5, ("Z").data, ("G").data⟩, true, none⟩ : RefreshOutcome).cache.t = 5 ∧
      (fun _ : ParsedFeed => (Except.ok (("Z").data) : Except PyErr Str)) fp =
        Except.ok (⟨⟨5, ("Z").data, ("G").data⟩, true, none⟩ : RefreshOutcome).cache.zen ∧
      (fun _ : ParsedFeed => (Except.ok (("G").data) : Except PyErr Str)) fp =
        Except.ok (⟨⟨5, ("Z").data, ("G").data⟩, true, none⟩ : RefreshOutcome).cache.tg :=
  (maybe_refresh_cache_amended false 5 600 ⟨0, [], []⟩
      (Except.ok (⟨false, [emptyEntry]⟩ : ParsedFeed))
      (fun _ => (Except.ok (("Z").data) : Except PyErr Str))
      (fun _ => (Except.ok (("G").data) : Except PyErr Str))
      ⟨⟨5, ("Z").data, ("G").data⟩, true, none⟩ (by decide)).2.1 rfl rfl

/-- C2 (counterexample): the claim fails as stated.  A well-formed feed
that parses to zero entries (`bozo` unset) does not raise: the refresh
succeeds and replaces all cache fields with empty-channel documents. -/
theorem zero_entries_wellformed_counterexample :
    (refreshConcrete cexConfig false 1000 ⟨2026, 1, 1, 0, 0, 0⟩
        ⟨0, ("Z0").data, ("T0").data⟩ (Except.ok ⟨false, []⟩)).err = none ∧
    (refreshConcrete cexConfig false 1000 ⟨2026, 1, 1, 0, 0, 0⟩
        ⟨0, ("Z0").data, ("T0").data⟩ (Except.ok ⟨false, []⟩)).fetched = true ∧
    (refreshConcrete cexConfig false 1000 ⟨2026, 1, 1, 0, 0, 0⟩
        ⟨0, ("Z0").data, ("T0").data⟩ (Except.ok ⟨false, []⟩)).cache.t = 1000 ∧
    (refreshConcrete cexConfig false 1000 ⟨2026, 1, 1, 0, 0, 0⟩
        ⟨0, ("Z0").data, ("T0").data⟩ (Except.ok ⟨false, []⟩)).cache.zen ≠ ("Z0").data ∧
    (refreshConcrete cexConfig false 1000 ⟨2026, 1, 1, 0, 0, 0⟩
        ⟨0, ("Z0").data, ("T0").data⟩ (Except.ok ⟨false, []⟩)).cache.tg ≠ ("T0").data := by
  refine ⟨by decide, by decide, by decide, by decide, by decide⟩

/-- C2 (amended): past the TTL guard, an input whose parse is flagged
malformed (`bozo`) and recovers zero entries makes the refresh raise
`HTTPException(502, ...)` — the SourceUnavailable failure — and leaves
every cache field unchanged.  (A well-formed zero-entry parse instead
refreshes normally.) -/
theorem zero_entries_bozo_amended (force : Bool) (now ttl : Int) (c : Cache)
    (pr : ParsedFeed) (bz bt : ParsedFeed → Except PyErr Str)
    (hb : pr.bozo = true) (he : pr.entries = [])
    (r : RefreshOutcome)
    (hr : maybe_refresh_cache force now ttl c (Except.ok pr) bz bt = r)
    (hf : r.fetched = true) :
    r.err = some (PyErr.httpException 502 sourceUnavailableMsg) ∧ r.cache = c := by
  have hfe : fetch_source_feed (Except.ok pr) =
      Except.error (PyErr.httpException 502 sourceUnavailableMsg) := by
    simp [fetch_source_feed, hb, he]
  unfold maybe_refresh_cache at hr
  by_cases hg : (!force && decide (now - c.t < ttl) && !c.zen.isEmpty && !c.tg.isEmpty) = true
  · rw [if_pos hg] at hr
    subst hr
    exact absurd hf (by simp)
  · rw [if_neg hg, hfe] at hr
    subst hr
    exact ⟨rfl, rfl⟩

/-- C2 witness: the amended theorem at a concrete malformed zero-entry
parse over a non-empty prior cache. -/
theorem zero_entries_bozo_amended_witness :
    (⟨⟨7, ("Z0").data, ("T0").data⟩, true,
        some (PyErr.httpException 502 sourceUnavailableMsg)⟩ : RefreshOutcome).err =
      some (PyErr.httpException 502 sourceUnavailableMsg) ∧
    (⟨⟨7, ("Z0").data, ("T0").data⟩, true,
        some (PyErr.httpException 502 sourceUnavailableMsg)⟩ : RefreshOutcome).cache =
      ⟨7, ("Z0").data, ("T0").data⟩ :=
  zero_entries_bozo_amended false 1000 600 ⟨7, ("Z0").data, ("T0").data⟩
    ⟨true, []⟩ (fun _ => Except.ok []) (fun _ => Except.ok [])
    rfl rfl
    ⟨⟨7, ("Z0").data, ("T0").data⟩, true,
      some (PyErr.httpException 502 sourceUnavailableMsg)⟩ (by decide) (by decide)

/-- The shape of a successful, guard-passing concrete refresh. -/
theorem refreshConcrete_success_shape (cfg : Config) (force : Bool) (now : Int)
    (nowDt : DateTime) (c : Cache) (http : Except PyErr ParsedFeed)
    (herr : (refreshConcrete cfg force now nowDt c http).err = none)
    (hfet : (refreshConcrete cfg force now nowDt c http).fetched = true) :
    ∃ fp, fetch_source_feed http = Except.ok fp ∧
      refreshConcrete cfg force now nowDt c http =
        ⟨⟨now, build_zen_xml cfg nowDt fp.entries, build_tg_xml cfg nowDt fp.entries⟩,
          true, none⟩ := by
  by_cases hg : (!force && decide (now - c.t < cfg.CACHE_TTL) && !c.zen.isEmpty && !c.tg.isEmpty) = true
  · have hv : refreshConcrete cfg force now nowDt c http = ⟨c, false, none⟩ := by
      unfold refreshConcrete maybe_refresh_cache
      rw [if_pos hg]
    rw [hv] at hfet
    exact absurd hfet (by simp)
  · cases hf : fetch_source_feed http with
    | error er =>
        have hv : refreshConcrete cfg force now nowDt c http = ⟨c, true, some er⟩ := by
          unfold refreshConcrete maybe_refresh_cache
          rw [if_neg hg, hf]
        rw [hv] at herr
        exact absurd herr (by simp)
    | ok fp =>
        refine ⟨fp, rfl, ?_⟩
        unfold refreshConcrete maybe_refresh_cache
        rw [if_neg hg, hf]

/-- C7: after a successful refresh, a second non-forced call whose time is
still within the TTL of the stored timestamp performs no upstream fetch
and leaves the cache exactly as it was — two calls inside one TTL window
fetch exactly once. -/
theorem ttl_single_fetch (cfg : Config) (force1 : Bool) (now1 : Int) (nowDt1 : DateTime)
    (c0 : Cache) (http1 : Except PyErr ParsedFeed)
    (now2 : Int) (nowDt2 : DateTime) (http2 : Except PyErr ParsedFeed)
    (h1 : (refreshConcrete cfg force1 now1 nowDt1 c0 http1).err = none)
    (h2 : (refreshConcrete cfg force1 now1 nowDt1 c0 http1).fetched = true)
    (hwin : now2 - (refreshConcrete cfg force1 now1 nowDt1 c0 http1).cache.t < cfg.CACHE_TTL) :
    (refreshConcrete cfg false now2 nowDt2
        (refreshConcrete cfg force1 now1 nowDt1 c0 http1).cache http2).fetched = false ∧
    (refreshConcrete cfg false now2 nowDt2
        (refreshConcrete cfg force1 now1 nowDt1 c0 http1).cache http2).cache =
      (refreshConcrete cfg force1 now1 nowDt1 c0 http1).cache := by
  obtain ⟨fp, hf, heq⟩ := refreshConcrete_success_shape cfg force1 now1 nowDt1 c0 http1 h1 h2
  rw [heq] at hwin ⊢
  have hguard : (!false &&
      decide (now2 - (⟨⟨now1, build_zen_xml cfg nowDt1 fp.entries,
        build_tg_xml cfg nowDt1 fp.entries⟩, true, none⟩ : RefreshOutcome).cache.t < cfg.CACHE_TTL) &&
      !(build_zen_xml cfg nowDt1 fp.entries).isEmpty &&
      !(build_tg_xml cfg nowDt1 fp.entries).isEmpty) = true := by
    simp only [Bool.not_false, Bool.true_and]
    rw [isEmpty_false_of_ne_nil (build_zen_xml_ne_nil cfg nowDt1 fp.entries),
      isEmpty_false_of_ne_nil (build_tg_xml_ne_nil cfg nowDt1 fp.entries)]
    simp [hwin]
  have hv : refreshConcrete cfg false now2 nowDt2
      (⟨⟨now1, build_zen_xml cfg nowDt1 fp.entries,
        build_tg_xml cfg nowDt1 fp.entries⟩, true, none⟩ : RefreshOutcome).cache http2 =
      ⟨(⟨⟨now1, build_zen_xml cfg nowDt1 fp.entries,
        build_tg_xml cfg nowDt1 fp.entries⟩, true, none⟩ : RefreshOutcome).cache, false, none⟩ := by
    unfold refreshConcrete maybe_refresh_cache
    rw [if_pos (by simpa using hguard)]
  rw [hv]
  exact ⟨rfl, rfl⟩

/-- C7 witness: two concrete calls 100 time units apart with a 600-unit
TTL; the second fetches nothing and keeps the cache. -/
theorem ttl_single_fetch_witness :
    (refreshConcrete cexConfig false 10100 ⟨2026, 1, 1, 0, 2, 0⟩
        (refreshConcrete cexConfig false 10000 ⟨2026, 1, 1, 0, 0, 0⟩ initCache
          (Except.ok ⟨false, []⟩)).cache (Except.ok ⟨false, []⟩)).fetched = false ∧
    (refreshConcrete cexConfig false 10100 ⟨2026, 1, 1, 0, 2, 0⟩
        (refreshConcrete cexConfig false 10000 ⟨2026, 1, 1, 0, 0, 0⟩ initCache
          (Except.ok ⟨false, []⟩)).cache (Except.ok ⟨false, []⟩)).cache =
      (refreshConcrete cexConfig false 10000 ⟨2026, 1, 1, 0, 0, 0⟩ initCache
        (Except.ok ⟨false, []⟩)).cache :=
  ttl_single_fetch cexConfig false 10000 ⟨2026, 1, 1, 0, 0, 0⟩ initCache
    (Except.ok ⟨false, []⟩) 10100 ⟨2026, 1, 1, 0, 2, 0⟩ (Except.ok ⟨false, []⟩)
    (by decide) (by decide) (by decide)

/-! ### Whitespace collapse lemmas -/

theorem wsNormalGo_true_imp_false {s : Str} (h : wsNormalGo true s = true) :
    wsNormalGo false s = true := by
  cases s with
  | nil => rfl
  | cons c cs =>
      unfold wsNormalGo at h ⊢
      by_cases hc : isPySpace c = true
      · rw [if_pos hc] at h
        simp at h
      · rw [if_neg hc] at h ⊢
        exact h

theorem head_not_ws_of_go_true {d : Char} {ds : Str}
    (h : wsNormalGo true (d :: ds) = true) : isPySpace d = false := by
  by_contra hc
  have hd : isPySpace d = true := by simpa using hc
  unfold wsNormalGo at h
  rw [if_pos hd] at h
  simp at h

theorem collapseWsGo_wsNormal : ∀ (s : Str) (flag : Bool),
    wsNormalGo flag (collapseWsGo flag s) = true := by
  intro s
  induction s with
  | nil => intro flag; rfl
  | cons c cs ih =>
      intro flag
      unfold collapseWsGo
      by_cases hc : isPySpace c = true
      · rw [if_pos hc]
        cases flag with
        | true => simpa using ih true
        | false =>
            show wsNormalGo false (' ' :: collapseWsGo true cs) = true
            unfold wsNormalGo
            rw [if_pos (by decide)]
            simpa using ih true
      · rw [if_neg hc]
        unfold wsNormalGo
        rw [if_neg hc]
        exact ih false

theorem collapseWsGo_id : ∀ (s : Str) (flag : Bool),
    wsNormalGo flag s = true → collapseWsGo flag s = s := by
  intro s
  induction s with
  | nil => intro flag _; rfl
  | cons c cs ih =>
      intro flag h
      unfold wsNormalGo at h
      unfold collapseWsGo
      by_cases hc : isPySpace c = true
      · rw [if_pos hc] at h ⊢
        cases flag with
        | true => simp at h
        | false =>
            simp only [Bool.not_false, Bool.true_and, Bool.and_eq_true, beq_iff_eq] at h
            rw [if_neg (by simp)]
            rw [ih true h.2, h.1]
      · rw [if_neg hc] at h ⊢
        rw [ih false h]

theorem wsNormalGo_append_left {b : Str} : ∀ (a : Str) (flag : Bool),
    wsNormalGo flag (a ++ b) = true → wsNormalGo flag a = true := by
  intro a
  induction a with
  | nil => intro flag _; rfl
  | cons c cs ih =>
      intro flag h
      replace h : (if isPySpace c = true then (!flag && (c == ' ') && wsNormalGo true (cs ++ b))
          else wsNormalGo false (cs ++ b)) = true := h
      unfold wsNormalGo
      by_cases hc : isPySpace c = true
      · rw [if_pos hc] at h ⊢
        simp only [Bool.and_eq_true] at h ⊢
        exact ⟨h.1, ih true h.2⟩
      · rw [if_neg hc] at h ⊢
        exact ih false h

theorem rstrip_append_eq (s : Str) : rstrip s ++ (s.reverse.takeWhile isPySpace).reverse = s := by
  have h1 : s.reverse.takeWhile isPySpace ++ s.reverse.dropWhile isPySpace = s.reverse :=
    List.takeWhile_append_dropWhile _ _
  have h2 := congrArg List.reverse h1
  rw [List.reverse_append, List.reverse_reverse] at h2
  exact h2

theorem wsNormal_rstrip {s : Str} (h : wsNormal s = true) : wsNormal (rstrip s) = true :=
  wsNormalGo_append_left (rstrip s) false (by rw [rstrip_append_eq s]; exact h)

theorem wsNormal_lstrip {s : Str} (h : wsNormal s = true) : wsNormal (lstrip s) = true := by
  cases s with
  | nil => exact h
  | cons c cs =>
      by_cases hc : isPySpace c = true
      · unfold wsNormal wsNormalGo at h
        rw [if_pos hc] at h
        simp only [Bool.and_eq_true] at h
        have hcs : lstrip (c :: cs) = cs := by
          unfold lstrip
          rw [List.dropWhile_cons, if_pos hc]
          cases cs with
          | nil => rfl
          | cons d ds =>
              rw [List.dropWhile_cons, if_neg (by rw [head_not_ws_of_go_true h.2]; simp)]
        rw [hcs]
        exact wsNormalGo_true_imp_false h.2
      · unfold lstrip
        rw [List.dropWhile_cons, if_neg hc]
        exact h

theorem map_id_of_mem {α : Type} {f : α → α} : ∀ {l : List α}, (∀ x ∈ l, f x = x) →
    l.map f = l := by
  intro l
  induction l with
  | nil => intro _; rfl
  | cons a t ih =>
      intro h
      rw [List.map_cons, h a (by simp), ih fun x hx => h x (by simp [hx])]

theorem tokWsNormal_mapTokWs (t : Tok) : tokWsNormal (mapTokWs t) = true := by
  cases t with
  | text s => exact collapseWsGo_wsNormal s false
  | tag n a =>
      unfold mapTokWs tokWsNormal
      rw [List.all_eq_true]
      intro kv hkv
      obtain ⟨kv0, -, rfl⟩ := List.mem_map.mp hkv
      exact collapseWsGo_wsNormal kv0.2 false
  | close n => rfl

theorem mapTokWs_id {t : Tok} (h : tokWsNormal t = true) : mapTokWs t = t := by
  cases t with
  | text s => exact congrArg Tok.text (collapseWsGo_id s false h)
  | tag n a =>
      unfold tokWsNormal at h
      rw [List.all_eq_true] at h
      show Tok.tag n (a.map fun kv => (kv.1, collapseWs kv.2)) = Tok.tag n a
      congr 1
      refine map_id_of_mem fun kv hkv => ?_
      have hcol : collapseWs kv.2 = kv.2 := collapseWsGo_id kv.2 false (h kv hkv)
      rw [hcol]
  | close n => rfl

/-! ### Line-break-run collapse lemmas -/

theorem collapseBrF_succ (f : Nat) (t : Tok) (ts : List Tok) :
    collapseBrF (f + 1) (t :: ts) =
      if isRunTok t then
        (if 3 ≤ countBr (t :: ts.takeWhile isRunTok) then
          brTok :: brTok :: collapseBrF f (lstripHeadText (ts.dropWhile isRunTok))
        else (t :: ts.takeWhile isRunTok) ++ collapseBrF f (ts.dropWhile isRunTok))
      else stripBeforeRun t ts :: collapseBrF f ts := rfl

theorem brNormalF_succ (f : Nat) (t : Tok) (ts : List Tok) :
    brNormalF (f + 1) (t :: ts) =
      if isRunTok t then
        decide (countBr (t :: ts.takeWhile isRunTok) ≤ 2) &&
          brNormalF f (ts.dropWhile isRunTok)
      else brNormalF f ts := rfl

theorem length_lstripHeadText (l : List Tok) : (lstripHeadText l).length = l.length := by
  cases l with
  | nil => rfl
  | cons t ts =>
      cases t with
      | text s => rfl
      | tag n a => rfl
      | close n => rfl

theorem mem_of_mem_takeWhile {α : Type} {p : α → Bool} {l : List α} {x : α}
    (h : x ∈ l.takeWhile p) : x ∈ l := by
  rw [← List.takeWhile_append_dropWhile p l]
  exact List.mem_append.mpr (Or.inl h)

theorem mem_of_mem_dropWhile {α : Type} {p : α → Bool} {l : List α} {x : α}
    (h : x ∈ l.dropWhile p) : x ∈ l := by
  rw [← List.takeWhile_append_dropWhile p l]
  exact List.mem_append.mpr (Or.inr h)

theorem takeWhile_append_all {α : Type} {p : α → Bool} {b : List α} :
    ∀ {a : List α}, (∀ x ∈ a, p x = true) → (a ++ b).takeWhile p = a ++ b.takeWhile p := by
  intro a
  induction a with
  | nil => intro _; rfl
  | cons c cs ih =>
      intro h
      rw [List.cons_append, List.takeWhile_cons, if_pos (h c (by simp)),
        ih fun x hx => h x (by simp [hx]), List.cons_append]

theorem dropWhile_append_all {α : Type} {p : α → Bool} {b : List α} :
    ∀ {a : List α}, (∀ x ∈ a, p x = true) → (a ++ b).dropWhile p = b.dropWhile p := by
  intro a
  induction a with
  | nil => intro _; rfl
  | cons c cs ih =>
      intro h
      rw [List.cons_append, List.dropWhile_cons, if_pos (h c (by simp))]
      exact ih fun x hx => h x (by simp [hx])

theorem takeWhile_eq_nil_of_head {α : Type} {p : α → Bool} {l : List α}
    (h : ∀ u, l.head? = some u → p u = false) : l.takeWhile p = [] := by
  cases l with
  | nil => rfl
  | cons t ts =>
      rw [List.takeWhile_cons, if_neg (by simp [h t rfl])]

theorem dropWhile_eq_self_of_head {α : Type} {p : α → Bool} {l : List α}
    (h : ∀ u, l.head? = some u → p u = false) : l.dropWhile p = l := by
  cases l with
  | nil => rfl
  | cons t ts =>
      rw [List.dropWhile_cons, if_neg (by simp [h t rfl])]

theorem dropWhile_headFree {α : Type} (p : α → Bool) (l : List α) :
    ∀ u, (l.dropWhile p).head? = some u → p u = false := by
  intro u hu
  cases hd : l.dropWhile p with
  | nil => rw [hd] at hu; simp at hu
  | cons a t =>
      rw [hd] at hu
      have : a = u := by simpa using hu
      subst this
      exact dropWhile_head_false hd

theorem collapseBrF_fuel_irrel : ∀ (f1 : Nat) (l : List Tok) (f2 : Nat),
    l.length ≤ f1 → l.length ≤ f2 → collapseBrF f1 l = collapseBrF f2 l := by
  intro f1
  induction f1 with
  | zero =>
      intro l f2 h1 _
      have : l = [] := List.eq_nil_of_length_eq_zero (Nat.le_zero.mp h1)
      subst this
      cases f2 with
      | zero => rfl
      | succ f2' => rfl
  | succ f ih =>
      intro l f2 h1 h2
      cases l with
      | nil =>
          cases f2 with
          | zero => rfl
          | succ f2' => rfl
      | cons t ts =>
          cases f2 with
          | zero => simp at h2
          | succ f2' =>
              have hts : ts.length ≤ f := by
                simp only [List.length_cons] at h1
                omega
              have hts2 : ts.length ≤ f2' := by
                simp only [List.length_cons] at h2
                omega
              have hdw : (ts.dropWhile isRunTok).length ≤ ts.length :=
                length_dropWhile_le _ _
              rw [collapseBrF_succ, collapseBrF_succ]
              by_cases ht : isRunTok t = true
              · rw [if_pos ht, if_pos ht]
                by_cases hc : 3 ≤ countBr (t :: ts.takeWhile isRunTok)
                · rw [if_pos hc, if_pos hc,
                    ih (lstripHeadText (ts.dropWhile isRunTok)) f2'
                      (by rw [length_lstripHeadText]; omega)
                      (by rw [length_lstripHeadText]; omega)]
                · rw [if_neg hc, if_neg hc,
                    ih (ts.dropWhile isRunTok) f2' (by omega) (by omega)]
              · rw [if_neg ht, if_neg ht, ih ts f2' hts hts2]

theorem brNormalF_fuel_irrel : ∀ (f1 : Nat) (l : List Tok) (f2 : Nat),
    l.length ≤ f1 → l.length ≤ f2 → brNormalF f1 l = brNormalF f2 l := by
  intro f1
  induction f1 with
  | zero =>
      intro l f2 h1 _
      have : l = [] := List.eq_nil_of_length_eq_zero (Nat.le_zero.mp h1)
      subst this
      cases f2 with
      | zero => rfl
      | succ f2' => rfl
  | succ f ih =>
      intro l f2 h1 h2
      cases l with
      | nil =>
          cases f2 with
          | zero => rfl
          | succ f2' => rfl
      | cons t ts =>
          cases f2 with
          | zero => simp at h2
          | succ f2' =>
              have hts : ts.length ≤ f := by
                simp only [List.length_cons] at h1
                omega
              have hts2 : ts.length ≤ f2' := by
                simp only [List.length_cons] at h2
                omega
              have hdw : (ts.dropWhile isRunTok).length ≤ ts.length :=
                length_dropWhile_le _ _
              rw [brNormalF_succ, brNormalF_succ]
              by_cases ht : isRunTok t = true
              · rw [if_pos ht, if_pos ht,
                  ih (ts.dropWhile isRunTok) f2' (by omega) (by omega)]
              · rw [if_neg ht, if_neg ht, ih ts f2' hts hts2]

theorem isRunTok_text (s : Str) : isRunTok (Tok.text s) = s.all isPySpace := rfl

theorem stripBeforeRun_text (s : Str) (ts : List Tok) :
    stripBeforeRun (Tok.text s) ts =
      if 3 ≤ countBr (ts.takeWhile isRunTok) then Tok.text (rstrip s) else Tok.text s := rfl

theorem stripBeforeRun_tag (n : Str) (a : List (Str × Str)) (ts : List Tok) :
    stripBeforeRun (Tok.tag n a) ts = Tok.tag n a := rfl

theorem stripBeforeRun_close (n : Str) (ts : List Tok) :
    stripBeforeRun (Tok.close n) ts = Tok.close n := rfl

theorem all_ws_false_rstrip {s : Str} (h : s.all isPySpace = false) :
    (rstrip s).all isPySpace = false := by
  by_contra hc
  have hall : (rstrip s).all isPySpace = true := by simpa using hc
  have hs : s.all isPySpace = true := by
    rw [← rstrip_append_eq s, List.all_append, hall]
    simp only [Bool.true_and]
    rw [List.all_eq_true]
    intro c hcmem
    exact List.mem_takeWhile_imp (List.mem_reverse.mp hcmem)
  rw [hs] at h
  exact absurd h (by simp)

theorem all_ws_false_lstrip {s : Str} (h : s.all isPySpace = false) :
    (lstrip s).all isPySpace = false := by
  by_contra hc
  have hall : (lstrip s).all isPySpace = true := by simpa using hc
  have hdec : s.takeWhile isPySpace ++ lstrip s = s := List.takeWhile_append_dropWhile _ _
  have hs : s.all isPySpace = true := by
    rw [← hdec, List.all_append, hall]
    simp only [Bool.and_true]
    rw [List.all_eq_true]
    intro c hcm
    exact List.mem_takeWhile_imp hcm
  rw [hs] at h
  exact absurd h (by simp)

theorem stripBeforeRun_nonrun {t : Tok} (ts : List Tok) (h : isRunTok t = false) :
    isRunTok (stripBeforeRun t ts) = false := by
  cases t with
  | text s =>
      rw [stripBeforeRun_text]
      by_cases hc : 3 ≤ countBr (ts.takeWhile isRunTok)
      · rw [if_pos hc]
        rw [isRunTok_text] at h ⊢
        exact all_ws_false_rstrip h
      · rw [if_neg hc]
        exact h
  | tag n a => exact h
  | close n => exact h

theorem lstripHeadText_headFree {l : List Tok}
    (h : ∀ u, l.head? = some u → isRunTok u = false) :
    ∀ u, (lstripHeadText l).head? = some u → isRunTok u = false := by
  cases l with
  | nil => intro u hu; simp [lstripHeadText] at hu
  | cons t ts =>
      cases t with
      | text s =>
          intro u hu
          have hu2 : Tok.text (lstrip s) = u := by simpa [lstripHeadText] using hu
          have hts : isRunTok (Tok.text s) = false := h _ rfl
          rw [← hu2, isRunTok_text]
          rw [isRunTok_text] at hts
          exact all_ws_false_lstrip hts
      | tag n a => exact h
      | close n => exact h

theorem lstripHeadText_mem {P : Tok → Prop}
    (hls : ∀ s, P (Tok.text s) → P (Tok.text (lstrip s)))
    {l : List Tok} (hall : ∀ y ∈ l, P y) :
    ∀ x ∈ lstripHeadText l, P x := by
  cases l with
  | nil => intro x hx; simp [lstripHeadText] at hx
  | cons t ts =>
      cases t with
      | text s =>
          intro x hx
          rcases List.mem_cons.mp hx with rfl | hx2
          · exact hls s (hall _ (by simp))
          · exact hall x (List.mem_cons_of_mem _ hx2)
      | tag n a => exact hall
      | close n => exact hall

theorem collapseBrF_mem (P : Tok → Prop)
    (hbr : P brTok)
    (hrs : ∀ s, P (Tok.text s) → P (Tok.text (rstrip s)))
    (hls : ∀ s, P (Tok.text s) → P (Tok.text (lstrip s))) :
    ∀ (f : Nat) (l : List Tok), l.length ≤ f → (∀ t ∈ l, P t) →
      ∀ t ∈ collapseBrF f l, P t := by
  intro f
  induction f with
  | zero =>
      intro l _ hall t htm
      exact hall t htm
  | succ f ih =>
      intro l h1 hall t htm
      cases l with
      | nil =>
          rw [show collapseBrF (f + 1) ([] : List Tok) = [] from rfl] at htm
          simp at htm
      | cons u ts =>
          have hts : ts.length ≤ f := by
            simp only [List.length_cons] at h1
            omega
          rw [collapseBrF_succ] at htm
          by_cases hu : isRunTok u = true
          · rw [if_pos hu] at htm
            by_cases hc : 3 ≤ countBr (u :: ts.takeWhile isRunTok)
            · rw [if_pos hc] at htm
              simp only [List.mem_cons] at htm
              rcases htm with rfl | htm2
              · exact hbr
              rcases htm2 with rfl | hmem
              · exact hbr
              · refine ih (lstripHeadText (ts.dropWhile isRunTok))
                  (by rw [length_lstripHeadText]; exact le_trans (length_dropWhile_le _ _) hts)
                  ?_ t hmem
                exact lstripHeadText_mem hls fun y hy =>
                  hall y (List.mem_cons_of_mem _ (mem_of_mem_dropWhile hy))
            · rw [if_neg hc] at htm
              rcases List.mem_append.mp htm with hmem | hmem
              · rcases List.mem_cons.mp hmem with rfl | hmem2
                · exact hall t (by simp)
                · exact hall t (List.mem_cons_of_mem _ (mem_of_mem_takeWhile hmem2))
              · exact ih (ts.dropWhile isRunTok)
                  (le_trans (length_dropWhile_le _ _) hts)
                  (fun x hx => hall x (List.mem_cons_of_mem _ (mem_of_mem_dropWhile hx)))
                  t hmem
          · rw [if_neg hu] at htm
            rcases List.mem_cons.mp htm with rfl | hmem
            · cases u with
              | text s =>
                  rw [stripBeforeRun_text]
                  by_cases hc : 3 ≤ countBr (ts.takeWhile isRunTok)
                  · rw [if_pos hc]
                    exact hrs s (hall _ (by simp))
                  · rw [if_neg hc]
                    exact hall _ (by simp)
              | tag n a =>
                  rw [stripBeforeRun_tag]
                  exact hall _ (by simp)
              | close n =>
                  rw [stripBeforeRun_close]
                  exact hall _ (by simp)
            · exact ih ts hts (fun x hx => hall x (List.mem_cons_of_mem _ hx)) t hmem

theorem collapseBrF_headFree (f : Nat) (l : List Tok)
    (hh : ∀ u, l.head? = some u → isRunTok u = false) :
    ∀ u, (collapseBrF f l).head? = some u → isRunTok u = false := by
  cases f with
  | zero => exact hh
  | succ f =>
      intro u hu
      cases l with
      | nil =>
          rw [show collapseBrF (f + 1) ([] : List Tok) = [] from rfl] at hu
          simp at hu
      | cons t ts =>
          have htr : isRunTok t = false := hh t rfl
          rw [collapseBrF_succ, if_neg (by simp [htr])] at hu
          have hueq : stripBeforeRun t ts = u := by simpa using hu
          rw [← hueq]
          exact stripBeforeRun_nonrun ts htr

theorem brNormalToks_cons_nonrun {t : Tok} {ts : List Tok} (h : isRunTok t = false) :
    brNormalToks (t :: ts) = brNormalToks ts := by
  unfold brNormalToks
  rw [show (t :: ts).length = ts.length + 1 from rfl, brNormalF_succ, if_neg (by simp [h])]

theorem brNormalToks_cons_run {t : Tok} {ts : List Tok} (h : isRunTok t = true) :
    brNormalToks (t :: ts) =
      (decide (countBr (t :: ts.takeWhile isRunTok) ≤ 2) &&
        brNormalToks (ts.dropWhile isRunTok)) := by
  unfold brNormalToks
  rw [show (t :: ts).length = ts.length + 1 from rfl, brNormalF_succ, if_pos h]
  congr 1
  exact brNormalF_fuel_irrel _ _ _ (length_dropWhile_le _ _) le_rfl

theorem collapseBrF_brNormal : ∀ (f : Nat) (l : List Tok), l.length ≤ f →
    brNormalToks (collapseBrF f l) = true := by
  intro f
  induction f with
  | zero =>
      intro l h1
      have : l = [] := List.eq_nil_of_length_eq_zero (Nat.le_zero.mp h1)
      subst this
      rfl
  | succ f ih =>
      intro l h1
      cases l with
      | nil => rfl
      | cons t ts =>
          have hts : ts.length ≤ f := by
            simp only [List.length_cons] at h1
            omega
          rw [collapseBrF_succ]
          by_cases ht : isRunTok t = true
          · rw [if_pos ht]
            by_cases hc : 3 ≤ countBr (t :: ts.takeWhile isRunTok)
            · rw [if_pos hc]
              have hYhead : ∀ u,
                  (collapseBrF f (lstripHeadText (ts.dropWhile isRunTok))).head? = some u →
                  isRunTok u = false :=
                collapseBrF_headFree f _ (lstripHeadText_headFree (dropWhile_headFree _ _))
              rw [brNormalToks_cons_run (by decide)]
              rw [List.takeWhile_cons, if_pos (by decide),
                takeWhile_eq_nil_of_head hYhead,
                List.dropWhile_cons, if_pos (by decide),
                dropWhile_eq_self_of_head hYhead]
              have hcount : countBr (brTok :: [brTok]) ≤ 2 := by decide
              rw [decide_eq_true hcount,
                ih _ (by rw [length_lstripHeadText]; exact le_trans (length_dropWhile_le _ _) hts)]
              rfl
            · rw [if_neg hc]
              have hrun : ∀ x ∈ ts.takeWhile isRunTok, isRunTok x = true :=
                fun x hx => List.mem_takeWhile_imp hx
              have hChead : ∀ u, (collapseBrF f (ts.dropWhile isRunTok)).head? = some u →
                  isRunTok u = false :=
                collapseBrF_headFree f _ (dropWhile_headFree _ _)
              rw [List.cons_append, brNormalToks_cons_run ht,
                takeWhile_append_all hrun, takeWhile_eq_nil_of_head hChead,
                List.append_nil,
                dropWhile_append_all hrun, dropWhile_eq_self_of_head hChead]
              have hcount : countBr (t :: ts.takeWhile isRunTok) ≤ 2 := by omega
              rw [decide_eq_true hcount,
                ih _ (le_trans (length_dropWhile_le _ _) hts)]
              rfl
          · rw [if_neg ht]
            rw [brNormalToks_cons_nonrun (stripBeforeRun_nonrun ts (by simpa using ht))]
            exact ih ts hts

theorem collapseBrF_id : ∀ (f : Nat) (l : List Tok), l.length ≤ f →
    brNormalToks l = true → collapseBrF f l = l := by
  intro f
  induction f with
  | zero =>
      intro l _ _
      rfl
  | succ f ih =>
      intro l h1 h2
      cases l with
      | nil => rfl
      | cons t ts =>
          have hts : ts.length ≤ f := by
            simp only [List.length_cons] at h1
            omega
          rw [collapseBrF_succ]
          by_cases ht : isRunTok t = true
          · rw [if_pos ht]
            rw [brNormalToks_cons_run ht] at h2
            simp only [Bool.and_eq_true, decide_eq_true_eq] at h2
            rw [if_neg (by omega)]
            rw [ih _ (le_trans (length_dropWhile_le _ _) hts) h2.2,
              List.cons_append, List.takeWhile_append_dropWhile]
          · rw [if_neg ht]
            rw [brNormalToks_cons_nonrun (by simpa using ht)] at h2
            rw [ih ts hts h2]
            have hcnt : ¬ 3 ≤ countBr (ts.takeWhile isRunTok) := by
              cases ts with
              | nil => simp [countBr]
              | cons u us =>
                  by_cases hu : isRunTok u = true
                  · rw [brNormalToks_cons_run hu] at h2
                    simp only [Bool.and_eq_true, decide_eq_true_eq] at h2
                    rw [List.takeWhile_cons, if_pos hu]
                    omega
                  · rw [List.takeWhile_cons, if_neg (by simp [hu])]
                    simp [countBr]
            congr 1
            cases t with
            | text s =>
                rw [stripBeforeRun_text, if_neg hcnt]
            | tag n a => rfl
            | close n => rfl

theorem collapseBrToks_brNormal (l : List Tok) : brNormalToks (collapseBrToks l) = true :=
  collapseBrF_brNormal _ _ le_rfl

theorem collapseBrToks_id {l : List Tok} (h : brNormalToks l = true) : collapseBrToks l = l :=
  collapseBrF_id _ _ le_rfl h

theorem collapseBrToks_mem (P : Tok → Prop)
    (hbr : P brTok)
    (hrs : ∀ s, P (Tok.text s) → P (Tok.text (rstrip s)))
    (hls : ∀ s, P (Tok.text s) → P (Tok.text (lstrip s)))
    {l : List Tok} (hall : ∀ t ∈ l, P t) :
    ∀ t ∈ collapseBrToks l, P t :=
  collapseBrF_mem P hbr hrs hls _ _ le_rfl hall

/-! ### bleach.clean lemmas -/

theorem allowedTok_tag (p : Profile) (n : Str) (a : List (Str × Str)) :
    allowedTok p (Tok.tag n a) =
      (decide (n ∈ p.tags) && a.all fun kv => decide (kv.1 ∈ p.attrsFor n)) := rfl

theorem cleanTok_text (p : Profile) (s : Str) : cleanTok p (Tok.text s) = some (Tok.text s) := rfl

theorem cleanTok_tag (p : Profile) (n : Str) (a : List (Str × Str)) :
    cleanTok p (Tok.tag n a) =
      if n ∈ p.tags then some (Tok.tag n (a.filter fun kv => decide (kv.1 ∈ p.attrsFor n)))
      else none := rfl

theorem cleanTok_close (p : Profile) (n : Str) :
    cleanTok p (Tok.close n) = if n ∈ p.tags then some (Tok.close n) else none := rfl

theorem bleachClean_allowed (p : Profile) (l : List Tok) :
    ∀ t ∈ bleachClean p l, allowedTok p t = true := by
  intro t ht
  unfold bleachClean at ht
  obtain ⟨a, -, hfa⟩ := List.mem_filterMap.mp ht
  cases a with
  | text s =>
      rw [cleanTok_text] at hfa
      have he : Tok.text s = t := by simpa using hfa
      rw [← he]
      rfl
  | tag n at2 =>
      rw [cleanTok_tag] at hfa
      by_cases hn : n ∈ p.tags
      · rw [if_pos hn] at hfa
        have he : Tok.tag n (at2.filter fun kv => decide (kv.1 ∈ p.attrsFor n)) = t := by
          simpa using hfa
        rw [← he, allowedTok_tag]
        simp only [Bool.and_eq_true, decide_eq_true_eq]
        refine ⟨hn, ?_⟩
        rw [List.all_eq_true]
        intro kv hkv
        exact (List.mem_filter.mp hkv).2
      · rw [if_neg hn] at hfa
        simp at hfa
  | close n =>
      rw [cleanTok_close] at hfa
      by_cases hn : n ∈ p.tags
      · rw [if_pos hn] at hfa
        have he : Tok.close n = t := by simpa using hfa
        rw [← he]
        show decide (n ∈ p.tags) = true
        exact decide_eq_true hn
      · rw [if_neg hn] at hfa
        simp at hfa

theorem bleachClean_id (p : Profile) : ∀ {l : List Tok},
    (∀ t ∈ l, allowedTok p t = true) → bleachClean p l = l := by
  intro l
  induction l with
  | nil => intro _; rfl
  | cons t ts ih =>
      intro h
      have hts : bleachClean p ts = ts := ih fun x hx => h x (List.mem_cons_of_mem _ hx)
      unfold bleachClean at hts ⊢
      rw [List.filterMap_cons]
      cases t with
      | text s =>
          rw [cleanTok_text, hts]
      | tag n a =>
          have ha := h _ (List.mem_cons_self _ ts)
          rw [allowedTok_tag] at ha
          simp only [Bool.and_eq_true, decide_eq_true_eq] at ha
          rw [cleanTok_tag, if_pos ha.1,
            List.filter_eq_self.mpr (List.all_eq_true.mp ha.2), hts]
      | close n =>
          have ha := h _ (List.mem_cons_self _ ts)
          have hn : n ∈ p.tags := by
            have : decide (n ∈ p.tags) = true := ha
            exact of_decide_eq_true this
          rw [cleanTok_close, if_pos hn, hts]

theorem allowedTok_mapTokWs (p : Profile) {t : Tok} (h : allowedTok p t = true) :
    allowedTok p (mapTokWs t) = true := by
  cases t with
  | text s => rfl
  | tag n a =>
      show allowedTok p (Tok.tag n (a.map fun kv => (kv.1, collapseWs kv.2))) = true
      rw [allowedTok_tag] at h ⊢
      simp only [Bool.and_eq_true] at h ⊢
      refine ⟨h.1, ?_⟩
      rw [List.all_eq_true]
      intro kv hkv
      obtain ⟨kv0, hkv0, rfl⟩ := List.mem_map.mp hkv
      exact List.all_eq_true.mp h.2 kv0 hkv0
  | close n => exact h

/-! ### Claim C4 -/

/-- C4 (counterexample): the claim fails as stated.  `<pre>` is in the
restricted allow-list and survives the restricted sanitizer untouched, yet
`pre` is a block-level HTML element — so the restricted output is not free
of block-level elements. -/
theorem sanitize_blocklevel_counterexample :
    sanitize_for_tg [Tok.tag (("pre").data) [], Tok.text (("x").data),
        Tok.close (("pre").data)] =
      [Tok.tag (("pre").data) [], Tok.text (("x").data), Tok.close (("pre").data)] ∧
    (("pre").data) ∈ blockLevelTags ∧
    (sanitize_for_tg [Tok.tag (("pre").data) [], Tok.text (("x").data),
        Tok.close (("pre").data)]).any isBlockTok = true := by
  refine ⟨by decide, by decide, by decide⟩

/-- C4 (amended): every element and attribute surviving either sanitizer is
inside that profile's allow-list, and the only block-level element that can
survive the restricted sanitizer is `pre` (which its allow-list contains,
always stripped to no attributes); no other block-level element
survives. -/
theorem sanitize_allowlist_amended :
    (∀ (x : List Tok), ∀ t ∈ sanitize_for_zen x, allowedTok zenProfile t = true) ∧
    (∀ (x : List Tok), ∀ t ∈ sanitize_for_tg x, allowedTok tgProfile t = true) ∧
    (∀ (x : List Tok), ∀ t ∈ sanitize_for_tg x, isBlockTok t = true →
      t = Tok.tag (("pre").data) []) := by
  have htg : ∀ (x : List Tok), ∀ t ∈ sanitize_for_tg x, allowedTok tgProfile t = true := by
    intro x t ht
    unfold sanitize_for_tg at ht
    refine collapseBrToks_mem (fun u => allowedTok tgProfile u = true)
      (by decide) (fun s _ => rfl) (fun s _ => rfl) ?_ t ht
    intro u hu
    obtain ⟨u0, hu0, rfl⟩ := List.mem_map.mp hu
    exact allowedTok_mapTokWs _ (bleachClean_allowed _ _ u0 hu0)
  refine ⟨?_, htg, ?_⟩
  · intro x t ht
    unfold sanitize_for_zen at ht
    exact bleachClean_allowed _ _ t (List.mem_filter.mp ht).1
  · intro x t ht hblock
    have hallow := htg x t ht
    cases t with
    | text s => simp [isBlockTok] at hblock
    | close n => simp [isBlockTok] at hblock
    | tag n a =>
        have hn : n ∈ blockLevelTags := of_decide_eq_true hblock
        rw [allowedTok_tag] at hallow
        simp only [Bool.and_eq_true, decide_eq_true_eq] at hallow
        have key : ∀ m ∈ TG_ALLOWED_TAGS, m ∈ blockLevelTags → m = ("pre").data := by decide
        have hname : n = ("pre").data := key n hallow.1 hn
        subst hname
        have ha : a = [] := by
          cases a with
          | nil => rfl
          | cons kv kvs =>
              have h0 := List.all_eq_true.mp hallow.2 kv (by simp)
              have h1 : kv.1 ∈ tgProfile.attrsFor (("pre").data) := of_decide_eq_true h0
              have h2 : tgProfile.attrsFor (("pre").data) = [] := by decide
              rw [h2] at h1
              simp at h1
        subst ha
        rfl

/-- C4 witness: a `<b>` tag with a disallowed attribute survives the
restricted sanitizer stripped to its allowed form. -/
theorem sanitize_allowlist_amended_witness :
    (Tok.tag (("b").data) [] ∈
      sanitize_for_tg [Tok.tag (("b").data) [((("x").data), (("y").data))]]) ∧
    allowedTok tgProfile (Tok.tag (("b").data) []) = true :=
  ⟨by decide,
   sanitize_allowlist_amended.2.1 [Tok.tag (("b").data) [((("x").data), (("y").data))]]
     (Tok.tag (("b").data) []) (by decide)⟩

/-! ### Claim C8 -/

/-- C8: the restricted sanitizer's output is whitespace-collapsed (every
whitespace run in text and attribute values is one plain space) and
contains no run of three or more consecutive `<br>`; a concrete run of
four `<br>` around whitespace collapses to exactly two. -/
theorem sanitize_tg_whitespace_collapse (x : List Tok) :
    (∀ t ∈ sanitize_for_tg x, tokWsNormal t = true) ∧
    brNormalToks (sanitize_for_tg x) = true ∧
    sanitize_for_tg [brTok, Tok.text (("  ").data), brTok, brTok, brTok] =
      [brTok, brTok] := by
  refine ⟨?_, ?_, by decide⟩
  · intro t ht
    unfold sanitize_for_tg at ht
    refine collapseBrToks_mem (fun u => tokWsNormal u = true)
      rfl (fun s hs => wsNormal_rstrip hs) (fun s hs => wsNormal_lstrip hs) ?_ t ht
    intro u hu
    obtain ⟨u0, -, rfl⟩ := List.mem_map.mp hu
    exact tokWsNormal_mapTokWs u0
  · unfold sanitize_for_tg
    exact collapseBrToks_brNormal _

/-- C8 witness: a text node with a tab-and-newline run comes out with a
single space. -/
theorem sanitize_tg_whitespace_collapse_witness :
    (Tok.text (("a b").data) ∈ sanitize_for_tg [Tok.text (("a \t\n b").data)]) ∧
    tokWsNormal (Tok.text (("a b").data)) = true :=
  ⟨by decide,
   (sanitize_tg_whitespace_collapse [Tok.text (("a \t\n b").data)]).1 _ (by decide)⟩

/-! ### Claim C9 -/

/-- C9: both sanitizers are idempotent — sanitizing already-sanitized
content changes nothing, for the rich and the restricted profile alike. -/
theorem sanitize_idempotent (x : List Tok) :
    sanitize_for_zen (sanitize_for_zen x) = sanitize_for_zen x ∧
    sanitize_for_tg (sanitize_for_tg x) = sanitize_for_tg x := by
  constructor
  · unfold sanitize_for_zen
    rw [bleachClean_id _ fun t ht => bleachClean_allowed _ _ t (List.mem_filter.mp ht).1]
    rw [List.filter_eq_self.mpr fun t ht => (List.mem_filter.mp ht).2]
  · unfold sanitize_for_tg
    have hallow : ∀ t ∈ collapseBrToks ((bleachClean tgProfile x).map mapTokWs),
        allowedTok tgProfile t = true := by
      refine collapseBrToks_mem (fun u => allowedTok tgProfile u = true)
        (by decide) (fun s _ => rfl) (fun s _ => rfl) ?_
      intro u hu
      obtain ⟨u0, hu0, rfl⟩ := List.mem_map.mp hu
      exact allowedTok_mapTokWs _ (bleachClean_allowed _ _ u0 hu0)
    have hnorm : ∀ t ∈ collapseBrToks ((bleachClean tgProfile x).map mapTokWs),
        tokWsNormal t = true := by
      refine collapseBrToks_mem (fun u => tokWsNormal u = true)
        rfl (fun s hs => wsNormal_rstrip hs) (fun s hs => wsNormal_lstrip hs) ?_
      intro u hu
      obtain ⟨u0, -, rfl⟩ := List.mem_map.mp hu
      exact tokWsNormal_mapTokWs u0
    rw [bleachClean_id _ hallow,
      map_id_of_mem fun t ht => mapTokWs_id (hnorm t ht)]
    exact collapseBrToks_id (collapseBrToks_brNormal _)

end RssNorm
